import Mathlib

/-!
Verification of the OpenDDL parsing core (`OpenDDLParser.cpp`).

The development shallowly embeds the parsing engine: the byte buffer is a
`List Char`, pointers into the buffer are `Nat` positions, loops whose C++
counterparts are bounded by the buffer end are structurally recursive on
`buf.length - pos`, and loops that can run forever take an explicit fuel
argument and return `Option` (`none` = the C++ loop has not terminated
within the given fuel).

The character/token utility templates live in the project header, which is
not part of the translated sources; they are modelled from the
specification (section 4.2), with their behaviour pinned down by the call
sites in `OpenDDLParser.cpp` where the specification is ambiguous.  Each
such definition carries a `Modelled from the spec:` note.  Out-of-range
reads (the C++ code can scan past `end`, which is undefined behaviour on a
raw buffer) are modelled by `rd` returning the NUL byte and by the bounded
scans halting at the buffer length.
-/

namespace OpenDDL

abbrev Buf := List Char

/-- Read one byte of the buffer; reads past the end yield the NUL byte
(the C++ code would touch memory past the allocation there). -/
def rd (buf : Buf) (pos : Nat) : Char :=
  buf.getD pos '\x00'

/-- Modelled from the spec: `isSpace` classifier (blank and tab). -/
def isSpace (c : Char) : Bool :=
  c = ' ' || c = '\t'

/-- Modelled from the spec: newline classifier (LF and CR). -/
def isNewLine (c : Char) : Bool :=
  c = '\n' || c = '\r'

/-- Modelled from the spec: end-of-line test used by the buffer
normalizer. -/
def isEndofLine (c : Char) : Bool :=
  c = '\n'

/-- Modelled from the spec: decimal digit classifier. -/
def isNumeric (c : Char) : Bool :=
  '0' ≤ c && c ≤ '9'

/-- Modelled from the spec: separators are whitespace and the `,{}()`
boundary characters (section 4.2). -/
def isSeparator (c : Char) : Bool :=
  isSpace c || isNewLine c || c = ',' || c = '{' || c = '}' || c = '(' || c = ')'

/-- Modelled from the spec: start of a string literal. -/
def isStringLiteral (c : Char) : Bool :=
  c = '\"'

/-- Structural worker for `skipWhile`; the gas argument is kept equal to
`buf.length - pos`, so it runs out exactly when the position reaches the
buffer length. -/
def skipWhileG (p : Char → Bool) (buf : Buf) : Nat → Nat → Nat
  | 0, pos => pos
  | gas + 1, pos =>
    if pos < buf.length then
      if p (rd buf pos) then skipWhileG p buf gas (pos + 1) else pos
    else pos

/-- Generic bounded forward scan: advance while the predicate holds and the
position is inside the buffer.  All the `while(... && in != end)` scan
loops of the source reduce to this shape; for positions past the end the
C++ loops would read unowned memory, the model halts there. -/
def skipWhile (p : Char → Bool) (buf : Buf) (pos : Nat) : Nat :=
  skipWhileG p buf (buf.length - pos) pos

/-- Modelled from the spec: `getNextToken` skips forward over whitespace;
the call sites in `parseDataList` (the loop re-enters at the `,` after
each literal and must move past it) and `parseReference` pin down that the
`,` separator is skipped as well, as in the project utility header. -/
def getNextToken (buf : Buf) (pos : Nat) : Nat :=
  skipWhile (fun c => isSpace c || isNewLine c || c = ',') buf pos

/-- Modelled from the spec: `getNextSeparator` scans forward to the next
separator character (and degenerates to the end position). -/
def getNextSeparator (buf : Buf) (pos : Nat) : Nat :=
  skipWhile (fun c => !isSeparator c) buf pos

/-- Structural worker for `digitRun` (gas = `buf.length - pos`). -/
def digitRunG (buf : Buf) : Nat → Nat → Bool → Bool
  | 0, _, acc => acc
  | gas + 1, pos, acc =>
    if pos < buf.length then
      if isSeparator (rd buf pos) then acc
      else if isNumeric (rd buf pos) then digitRunG buf gas (pos + 1) true
      else false
    else acc

/-- Helper for the integer/float span classifiers: scan from `pos`; a
separator or the buffer end returns the accumulated answer, a digit
continues with answer `true`, anything else is `false` immediately
(mirrors the `result = isNumeric(*in); if(!result) break;` loops). -/
def digitRun (buf : Buf) (pos : Nat) (acc : Bool) : Bool :=
  digitRunG buf (buf.length - pos) pos acc

/-- Modelled from the spec: lookahead classification of an integer span —
an optional `-` followed by a non-empty run of digits up to the next
separator. -/
def isInteger (buf : Buf) (pos : Nat) : Bool :=
  let p := if rd buf pos = '-' && pos < buf.length then pos + 1 else pos
  digitRun buf p false

/-- Structural worker for `floatIntPart` (gas = `buf.length - pos`). -/
def floatIntPartG (buf : Buf) : Nat → Nat → Bool
  | 0, _ => false
  | gas + 1, pos =>
    if pos < buf.length then
      if rd buf pos = '.' then digitRun buf (pos + 1) true
      else if isSeparator (rd buf pos) then false
      else if isNumeric (rd buf pos) then floatIntPartG buf gas (pos + 1)
      else false
    else false

/-- Phase one of the float classifier: digits until a `.` is reached; a
separator before any `.` or any other character fails (the spec classifies
a span without a `.` as an integer span, and the dispatch sites test
`isInteger` first, so a pure digit run never reaches this classifier). -/
def floatIntPart (buf : Buf) (pos : Nat) : Bool :=
  floatIntPartG buf (buf.length - pos) pos

/-- Modelled from the spec: lookahead classification of a float span — a
`.` appears before the next separator, with digits around it (the spec
decides "float if a `.` or exponent marker appears before the next
separator, integer otherwise"; the dispatch sites test `isInteger` first,
so pure digit runs never reach this classifier). -/
def isFloat (buf : Buf) (pos : Nat) : Bool :=
  let p := if rd buf pos = '-' && pos < buf.length then pos + 1 else pos
  floatIntPart buf p

/-- Modelled from the spec: hex literal lookahead — `0x` or `0X`. -/
def isHexLiteral (buf : Buf) (pos : Nat) : Bool :=
  rd buf pos = '0' && pos + 1 < buf.length &&
    (rd buf (pos + 1) = 'x' || rd buf (pos + 1) = 'X')

/-- Modelled from the spec: the two-character line-comment marker `//`
(the scan is bounded by the declared length). -/
def isComment (buf : Buf) (pos : Nat) : Bool :=
  rd buf pos = '/' && pos + 1 < buf.length && rd buf (pos + 1) = '/'

/-- C `strncmp(a, b, n) == 0`, both strings read with an implicit NUL
terminator after their explicit characters: compare at most `n`
characters, stop unequal at the first difference, stop equal at a shared
NUL. -/
def strncmpZero (a b : Buf) : Nat → Bool
  | 0 => true
  | n + 1 =>
    let ca := a.getD 0 '\x00'
    let cb := b.getD 0 '\x00'
    if ca ≠ cb then false
    else if ca = '\x00' then true
    else strncmpZero (a.drop 1) (b.drop 1) n

/-- Modelled from the spec: the per-digit helper of the hexadecimal
decoder; digits and `a`-`f`/`A`-`F` map to their value, anything else maps
to the error constant (the decoder of this source never looks at the
error case because its validity check is defective, see `hexBadChar`). -/
def hex2Decimal (c : Char) : Int :=
  if isNumeric c then (c.toNat : Int) - ('0'.toNat : Int)
  else if 'a' ≤ c && c ≤ 'f' then (c.toNat : Int) - ('a'.toNat : Int) + 10
  else if 'A' ≤ c && c ≤ 'F' then (c.toNat : Int) - ('A'.toNat : Int) + 10
  else 9999

/-- Structural worker for `scanDigits` (gas = `buf.length - pos`). -/
def scanDigitsG (buf : Buf) : Nat → Nat → Nat → Nat × Nat
  | 0, pos, acc => (acc, pos)
  | gas + 1, pos, acc =>
    if pos < buf.length then
      if isNumeric (rd buf pos) then
        scanDigitsG buf gas (pos + 1) (acc * 10 + ((rd buf pos).toNat - '0'.toNat))
      else (acc, pos)
    else (acc, pos)

/-- Scan a run of decimal digits accumulating their value; returns the
value and the position of the first non-digit (or the end). -/
def scanDigits (buf : Buf) (pos : Nat) (acc : Nat) : Nat × Nat :=
  scanDigitsG buf (buf.length - pos) pos acc

/-- Modelled from the spec: C `atoi` at a buffer position — an optional
sign followed by a digit run, decoded as a decimal integer. -/
def atoiAt (buf : Buf) (pos : Nat) : Int :=
  if rd buf pos = '-' then -((scanDigits buf (pos + 1) 0).1 : Int)
  else ((scanDigits buf pos 0).1 : Int)

/-- Modelled from the spec: C `atof` at a buffer position — an optional
sign, a digit run, an optional `.` and fraction digit run; decoded exactly
over `ℚ` (the float rounding of the C library is not modelled, no claim
inspects a float payload numerically). -/
def atofAt (buf : Buf) (pos : Nat) : ℚ :=
  let neg := rd buf pos = '-'
  let p := if neg then pos + 1 else pos
  let ip := scanDigits buf p 0
  let m : ℚ :=
    if rd buf ip.2 = '.' then
      let fp := scanDigits buf (ip.2 + 1) 0
      (ip.1 : ℚ) + (fp.1 : ℚ) / (10 : ℚ) ^ (fp.2 - (ip.2 + 1))
    else (ip.1 : ℚ)
  if neg then -m else m

/-- Two's-complement narrowing of an `int` value to a signed `w`-bit
width, as the `setInt8/16/32/64` setters do by C cast. -/
def wrapSigned (w : Nat) (v : Int) : Int :=
  (v + 2 ^ (w - 1)) % 2 ^ w - 2 ^ (w - 1)

/-! ## Data model (`Value`, `Identifier`, `Name`, `Reference`, `Property`,
`DDLNode`, and the parse-session state) -/

/-- `Value::ValueType`, in the declaration order of the source (the order
fixes the indices used by `parsePrimitiveDataType`). -/
inductive ValueType where
  | ddl_bool | ddl_int8 | ddl_int16 | ddl_int32 | ddl_int64
  | ddl_unsigned_int8 | ddl_unsigned_int16 | ddl_unsigned_int32 | ddl_unsigned_int64
  | ddl_half | ddl_float | ddl_double | ddl_string | ddl_ref | ddl_none
deriving DecidableEq, Repr

/-- The decoded payload a `Value` owns. -/
inductive VPayload where
  | nopay
  | vbool (b : Bool)
  | i8 (v : Int)
  | i16 (v : Int)
  | i32 (v : Int)
  | i64 (v : Int)
  | flt (q : ℚ)
  | str (s : Buf)
deriving DecidableEq, Repr

/-- A `Value` node: its type tag and decoded payload.  The `m_next` chain
of the source is represented by the position of the value inside a
`List Value`. -/
structure Value where
  m_type : ValueType
  payload : VPayload
deriving DecidableEq, Repr

/-- `Identifier`: token text plus stored length (the stored length counts
the trailing NUL terminator, so it is text length + 1, exactly as
`parseIdentifier` computes it). -/
structure Identifier where
  m_len : Nat
  m_buffer : Buf
deriving DecidableEq, Repr

/-- Name scope: `$` is a global name, `%` a local name. -/
inductive NameType where
  | GlobalName
  | LocalName
deriving DecidableEq, Repr

/-- A `Name`: scope plus identifier. -/
structure Name where
  m_type : NameType
  m_id : Identifier
deriving DecidableEq, Repr

/-- A `Reference`: the captured, unresolved list of names. -/
structure Reference where
  m_numRefs : Nat
  m_referencedName : List Name
deriving DecidableEq, Repr

/-- A `Property`: key identifier and either a literal value or a
reference; its `m_next` chain is represented by list order. -/
structure Property where
  m_id : Identifier
  m_primData : Option Value
  m_ref : Option Reference
deriving DecidableEq, Repr

/-- A tree node.  Nodes live in an arena (`PState.m_nodes`); `m_parent` is
the arena index of the parent.  `m_dtArrayList` holds the entries of an
attached `DataArrayList`: each entry's `m_dataList` pointer is an
`Option (List Value)` (`none` models a null chain pointer). -/
structure DDLNode where
  m_type : Buf
  m_name : Buf
  m_parent : Option Nat
  m_properties : List Property
  m_value : List Value
  m_dtArrayList : List (Option (List Value))
deriving DecidableEq, Repr

/-- The mutable state a parse run threads: the node arena (every node ever
created, root first), the node stack (arena indices), and the context's
property chain (populated only by a `Metric` structure). -/
structure PState where
  m_nodes : List DDLNode
  m_stack : List Nat
  m_ctxProperties : List Property
deriving DecidableEq, Repr

/-- A fresh node of the given type with the given parent. -/
def mkNode (type : Buf) (parent : Option Nat) : DDLNode :=
  { m_type := type, m_name := [], m_parent := parent,
    m_properties := [], m_value := [], m_dtArrayList := [] }

/-- `OpenDDLParser::top()`: the back of the node stack, null when empty. -/
def stackTop (st : PState) : Option Nat :=
  st.m_stack.getLast?

/-- `OpenDDLParser::pushNode`. -/
def pushNode (st : PState) (i : Nat) : PState :=
  { st with m_stack := st.m_stack ++ [i] }

/-- Update the arena node at index `i`. -/
def updNode (st : PState) (i : Nat) (f : DDLNode → DDLNode) : PState :=
  { st with m_nodes := st.m_nodes.set i (f (st.m_nodes.getD i (mkNode [] none))) }

/-- `createDDLNode`: make a node typed by the identifier text, parented at
the current stack top, and record it in the arena; returns its index. -/
def createDDLNode (id : Identifier) (st : PState) : PState × Nat :=
  ({ st with m_nodes := st.m_nodes ++ [mkNode id.m_buffer (stackTop st)] },
   st.m_nodes.length)

/-! ## Literal parsers -/

def BoolTrue : Buf := "true".toList
def BoolFalse : Buf := "false".toList
def RefToken : Buf := "ref".toList
def MetricToken : Buf := "Metric".toList

/-- `OpenDDLParser::parseIdentifier`: skip whitespace, refuse a leading
digit, then take the maximal run of non-separator, non-parenthesis bytes;
the stored length counts the NUL terminator.  An empty run still produces
a (non-null) empty identifier, exactly as the source does. -/
def parseIdentifier (buf : Buf) (pos : Nat) : Option Identifier × Nat :=
  if pos = buf.length then (Option.none, pos)
  else
    let p := getNextToken buf pos
    if isNumeric (rd buf p) then (Option.none, p)
    else
      let q := skipWhile (fun c => !isSeparator c && c ≠ '(' && c ≠ ')') buf p
      (Option.some { m_len := (q - p) + 1, m_buffer := (buf.drop p).take (q - p) }, q)

/-- `OpenDDLParser::parseName`: after whitespace, a `$` or `%` marks the
scope and the identifier is parsed from the marker position onward (the
marker byte itself is part of the identifier text: the source never
advances past it before calling `parseIdentifier`). -/
def parseName (buf : Buf) (pos : Nat) : Option Name × Nat :=
  if pos = buf.length then (Option.none, pos)
  else
    let p := getNextToken buf pos
    if rd buf p ≠ '$' && rd buf p ≠ '%' then (Option.none, p)
    else
      let ntype := if rd buf p = '%' then NameType.LocalName else NameType.GlobalName
      match parseIdentifier buf p with
      | (Option.some id, q) => (Option.some { m_type := ntype, m_id := id }, q)
      | (Option.none, q) => (Option.none, q)

/-- `OpenDDLParser::parseBooleanLiteral`: scan the token, then compare the
bytes at the token start against `true` (4 characters) and `false`
(5 characters) with `strncmp` — a prefix comparison against the buffer,
not an exact match of the scanned token. -/
def parseBooleanLiteral (buf : Buf) (pos : Nat) : Option Value × Nat :=
  if pos = buf.length then (Option.none, pos)
  else
    let p := getNextToken buf pos
    let q := skipWhile (fun c => !isSeparator c) buf p
    if strncmpZero BoolTrue (buf.drop p) BoolTrue.length then
      (Option.some ⟨ValueType.ddl_bool, VPayload.vbool true⟩, q)
    else if strncmpZero BoolFalse (buf.drop p) BoolFalse.length then
      (Option.some ⟨ValueType.ddl_bool, VPayload.vbool false⟩, q)
    else (Option.none, q)

/-- `isIntegerType`: only the four signed widths. -/
def isIntegerType (t : ValueType) : Bool :=
  t = ValueType.ddl_int8 || t = ValueType.ddl_int16 ||
  t = ValueType.ddl_int32 || t = ValueType.ddl_int64

/-- `OpenDDLParser::parseIntegerLiteral`: requires a signed integer target
type, scans the token, requires a leading digit (so a `-` sign is
rejected here), decodes with `atoi` and narrows by C cast to the requested
width.  The call sites in `parseProperty` and `parseDataList` use the
declaration's default argument `ddl_int32`. -/
def parseIntegerLiteral (buf : Buf) (pos : Nat) (integerType : ValueType) :
    Option Value × Nat :=
  if pos = buf.length then (Option.none, pos)
  else if !isIntegerType integerType then (Option.none, pos)
  else
    let p := getNextToken buf pos
    let q := skipWhile (fun c => !isSeparator c) buf p
    if isNumeric (rd buf p) then
      let v := atoiAt buf p
      let payload :=
        match integerType with
        | ValueType.ddl_int8 => VPayload.i8 (wrapSigned 8 v)
        | ValueType.ddl_int16 => VPayload.i16 (wrapSigned 16 v)
        | ValueType.ddl_int32 => VPayload.i32 (wrapSigned 32 v)
        | ValueType.ddl_int64 => VPayload.i64 (wrapSigned 64 v)
        | _ => VPayload.nopay
      (Option.some ⟨integerType, payload⟩, q)
    else (Option.none, q)

/-- `OpenDDLParser::parseFloatingLiteral`: scans the token, accepts it
when it starts with a digit or a `-` followed by a digit, and decodes with
`atof` into a float value. -/
def parseFloatingLiteral (buf : Buf) (pos : Nat) : Option Value × Nat :=
  if pos = buf.length then (Option.none, pos)
  else
    let p := getNextToken buf pos
    let q := skipWhile (fun c => !isSeparator c) buf p
    let ok := isNumeric (rd buf p) ||
      (rd buf p = '-' && isNumeric (rd buf (p + 1)))
    if ok then (Option.some ⟨ValueType.ddl_float, VPayload.flt (atofAt buf p)⟩, q)
    else (Option.none, q)

/-- `OpenDDLParser::parseStringLiteral`: requires a leading `"`, consumes
through the closing `"` (across any bytes), and stores the enclosed bytes
verbatim. -/
def parseStringLiteral (buf : Buf) (pos : Nat) : Option Value × Nat :=
  if pos = buf.length then (Option.none, pos)
  else
    let p := getNextToken buf pos
    if rd buf p = '\"' then
      let q := skipWhile (fun c => c ≠ '\"') buf (p + 1)
      (Option.some ⟨ValueType.ddl_string, VPayload.str ((buf.drop (p + 1)).take (q - (p + 1)))⟩,
       q + 1)
    else (Option.none, p)

/-- The defective per-byte hex validity test, verbatim from the source:
`( *in < '0' && *in > '9' ) || ( *in < 'a' && *in > 'f' ) || ( *in < 'A' && *in > 'F' )`.
Each conjunction pairs a lower bound with a contradictory upper bound, so
the test never holds for any byte. -/
def hexBadChar (c : Char) : Bool :=
  (c < '0' && '9' < c) || (c < 'a' && 'f' < c) || (c < 'A' && 'F' < c)

/-- Structural worker for `hexScan` (gas = `buf.length - pos`). -/
def hexScanG (buf : Buf) : Nat → Nat → Bool × Nat
  | 0, pos => (true, pos)
  | gas + 1, pos =>
    if pos < buf.length then
      if isSeparator (rd buf pos) then (true, pos)
      else if hexBadChar (rd buf pos) then (false, pos)
      else hexScanG buf gas (pos + 1)
    else (true, pos)

/-- The digit-validation scan of `parseHexaLiteral`: stop successfully at
a separator or the end, flag failure on a byte the (defective) check
rejects. -/
def hexScan (buf : Buf) (pos : Nat) : Bool × Nat :=
  hexScanG buf (buf.length - pos) pos

/-- The most-significant-digit-first accumulation of the hex decoder
(`value += hex2Decimal(*start) * pow(16, pos)`, folded left). -/
def hexValue (ds : Buf) : Int :=
  ds.foldl (fun acc c => acc * 16 + hex2Decimal c) 0

/-- `OpenDDLParser::parseHexaLiteral`: `0x`/`0X`, then the digit scan
(whose validity check can never fail, see `hexBadChar`), then decode into
a 32-bit signed value. -/
def parseHexaLiteral (buf : Buf) (pos : Nat) : Option Value × Nat :=
  if pos = buf.length then (Option.none, pos)
  else
    let p := getNextToken buf pos
    if rd buf p ≠ '0' then (Option.none, p)
    else if rd buf (p + 1) ≠ 'x' && rd buf (p + 1) ≠ 'X' then (Option.none, p + 1)
    else
      match hexScan buf (p + 2) with
      | (false, q) => (Option.none, q)
      | (true, q) =>
        let digits := (buf.drop (p + 2)).take (q - (p + 2))
        (Option.some ⟨ValueType.ddl_int32, VPayload.i32 (wrapSigned 32 (hexValue digits))⟩, q)

/-- `createPropertyWithData`: a property is built only when the literal
parse produced a value. -/
def createPropertyWithData (id : Identifier) (primData : Option Value) : Option Property :=
  primData.map (fun v => { m_id := id, m_primData := Option.some v, m_ref := Option.none })

/-! ## Reference, property and data-list parsing (fueled loops) -/

/-- The `while( '}' != *in )` loop of `parseReference`: scan to the next
separator; a `,` continues with another name, anything else breaks. -/
def referenceLoop (fuel : Nat) (buf : Buf) (pos : Nat) (names : List Name) :
    Option (List Name × Nat) :=
  match fuel with
  | 0 => Option.none
  | fuel + 1 =>
    if rd buf pos = '}' then Option.some (names, pos)
    else
      let p := getNextSeparator buf pos
      if rd buf p = ',' then
        match parseName buf p with
        | (Option.some n, q) => referenceLoop fuel buf q (names ++ [n])
        | (Option.none, q) => referenceLoop fuel buf q names
      else Option.some (names, p)

/-- `OpenDDLParser::parseReference`: the literal keyword `ref`, a `{`,
then a comma-separated run of names until `}`. -/
def parseReference (fuel : Nat) (buf : Buf) (pos : Nat) :
    Option (List Name × Nat) :=
  if pos = buf.length then Option.some ([], pos)
  else if !strncmpZero (buf.drop pos) RefToken RefToken.length then Option.some ([], pos)
  else
    let p := getNextToken buf (pos + RefToken.length)
    if rd buf p ≠ '{' then Option.some ([], p)
    else
      let q := getNextToken buf (p + 1)
      match parseName buf q with
      | (n?, r) => referenceLoop fuel buf r n?.toList

/-- `OpenDDLParser::parseProperty`: identifier key, `=`, then a value
dispatched in the fixed order integer → float → string → reference. -/
def parseProperty (fuel : Nat) (buf : Buf) (pos : Nat) :
    Option (Option Property × Nat) :=
  if pos = buf.length then Option.some (Option.none, pos)
  else
    let p := getNextToken buf pos
    match parseIdentifier buf p with
    | (Option.none, q) => Option.some (Option.none, q)
    | (Option.some id, q) =>
      let r := getNextToken buf q
      if rd buf r = '=' then
        let s := getNextToken buf (r + 1)
        if isInteger buf s then
          let (pd, t) := parseIntegerLiteral buf s ValueType.ddl_int32
          Option.some (createPropertyWithData id pd, t)
        else if isFloat buf s then
          let (pd, t) := parseFloatingLiteral buf s
          Option.some (createPropertyWithData id pd, t)
        else if isStringLiteral (rd buf s) then
          let (pd, t) := parseStringLiteral buf s
          Option.some (createPropertyWithData id pd, t)
        else
          match parseReference fuel buf s with
          | Option.none => Option.none
          | Option.some (names, t) =>
            if names ≠ [] then
              Option.some (Option.some
                { m_id := id, m_primData := Option.none,
                  m_ref := Option.some ⟨names.length, names⟩ }, t)
            else Option.some (Option.none, t)
      else Option.some (Option.none, r)

/-- Outcome of the property scan inside `parseHeader`: either the
collected chain with the position just past the loop (the `in++` after the
loop is included), or the early `return in` taken when the byte after a
property is neither `,` nor `)`. -/
inductive PropScanOut where
  | err (pos : Nat)
  | ok (props : List Property) (pos : Nat)
deriving DecidableEq, Repr

/-- The `while( *in != ')' && in != end )` property loop of
`parseHeader`: parse one property, skip to the next token, error-return
unless it is `,` or `)`, and chain the property only when the byte is not
a `,` (this is the condition as written in the source). -/
def propScan (fuel : Nat) (buf : Buf) (pos : Nat) (acc : List Property) :
    Option PropScanOut :=
  match fuel with
  | 0 => Option.none
  | fuel + 1 =>
    if rd buf pos = ')' || pos = buf.length then Option.some (PropScanOut.ok acc (pos + 1))
    else
      match parseProperty fuel buf pos with
      | Option.none => Option.none
      | Option.some (prop?, p) =>
        let q := getNextToken buf p
        if rd buf q ≠ ',' && rd buf q ≠ ')' then Option.some (PropScanOut.err q)
        else
          let acc' := if prop?.isSome && rd buf q ≠ ',' then acc ++ prop?.toList else acc
          propScan fuel buf q acc'

/-- The tail of `parseHeader` after the property block: attach a
non-empty chain to the Context when the identifier text is `Metric`
(`strncmp("Metric", id->m_buffer, id->m_len)`), otherwise to the current
stack top; then create and push the node for this structure; finally parse
an optional name for the new node. -/
def headerFinish (buf : Buf) (st : PState) (id : Identifier) (first : List Property)
    (pos : Nat) : PState × Nat :=
  let st1 :=
    if first ≠ [] then
      if strncmpZero MetricToken id.m_buffer id.m_len then
        { st with m_ctxProperties := first }
      else
        match stackTop st with
        | Option.some i => updNode st i (fun n => { n with m_properties := first })
        | Option.none => st
    else st
  let (st2, nodeIdx) := createDDLNode id st1
  let st3 := pushNode st2 nodeIdx
  match parseName buf pos with
  | (Option.some nm, q) =>
    (updNode st3 nodeIdx (fun n => { n with m_name := nm.m_id.m_buffer }), q)
  | (Option.none, q) => (st3, q)

/-- `OpenDDLParser::parseHeader`: identifier, optional `( ... )` property
block (whose early error return aborts the whole header), then node
creation and optional name. -/
def parseHeader (fuel : Nat) (buf : Buf) (pos : Nat) (st : PState) :
    Option (PState × Nat) :=
  if pos = buf.length then Option.some (st, pos)
  else
    match parseIdentifier buf pos with
    | (id?, p0) =>
      let p := getNextToken buf p0
      match id? with
      | Option.none => Option.some (st, p)
      | Option.some id =>
        if rd buf p = '(' then
          match propScan fuel buf (p + 1) [] with
          | Option.none => Option.none
          | Option.some (PropScanOut.err q) => Option.some (st, q)
          | Option.some (PropScanOut.ok props q) =>
            Option.some (headerFinish buf st id props q)
        else Option.some (headerFinish buf st id [] p)

/-- The literal-classification chain from the body of `parseDataList`:
integer → float → string → hex, first match wins, no match leaves the
value null and the position unmoved. -/
def dataListValue (buf : Buf) (pos : Nat) : Option Value × Nat :=
  if isInteger buf pos then parseIntegerLiteral buf pos ValueType.ddl_int32
  else if isFloat buf pos then parseFloatingLiteral buf pos
  else if isStringLiteral (rd buf pos) then parseStringLiteral buf pos
  else if isHexLiteral buf pos then parseHexaLiteral buf pos
  else (Option.none, pos)

/-- The `while( '}' != *in )` loop of `parseDataList`: classify and parse
one literal, append it to the chain, advance to the next separator, and
break (past one byte) when that separator is neither `,` nor `}` nor a
space. -/
def dataListLoop (fuel : Nat) (buf : Buf) (pos : Nat) (acc : List Value) :
    Option (List Value × Nat) :=
  match fuel with
  | 0 => Option.none
  | fuel + 1 =>
    if rd buf pos = '}' then Option.some (acc, pos + 1)
    else
      let p := getNextToken buf pos
      let (cur?, q) := dataListValue buf p
      let acc' := acc ++ cur?.toList
      let r := getNextSeparator buf q
      if rd buf r ≠ ',' && rd buf r ≠ '}' && !isSpace (rd buf r) then
        Option.some (acc', r + 1)
      else dataListLoop fuel buf r acc'

/-- `OpenDDLParser::parseDataList`: given a `{`, the literal loop; the
empty chain models the null `*data` out-parameter. -/
def parseDataList (fuel : Nat) (buf : Buf) (pos : Nat) :
    Option (List Value × Nat) :=
  if pos = buf.length then Option.some ([], pos)
  else
    let p := getNextToken buf pos
    if rd buf p = '{' then dataListLoop fuel buf (p + 1) []
    else Option.some ([], p)

/-- The `do { ... } while( ',' == *in && in != end )` loop of
`parseDataArrayList`.  For the first non-null chain a `DataArrayList`
entry holding the chain is created; for every later non-null chain a fresh
entry is linked in but its `m_dataList` member is never assigned, so the
entry carries a null chain (`none`). -/
def dataArrayLoop (fuel : Nat) (buf : Buf) (pos : Nat)
    (entries : List (Option (List Value))) :
    Option (List (Option (List Value)) × Nat) :=
  match fuel with
  | 0 => Option.none
  | fuel + 1 =>
    match parseDataList fuel buf pos with
    | Option.none => Option.none
    | Option.some (chain, p) =>
      let entries' :=
        if chain ≠ [] then
          if entries = [] then [Option.some chain] else entries ++ [Option.none]
        else entries
      if rd buf p = ',' && p ≠ buf.length then dataArrayLoop fuel buf p entries'
      else Option.some (entries', p)

/-- `OpenDDLParser::parseDataArrayList`: given a `{`, successive data
lists while the scanner sits on a `,`; the outer `Option` of the result
models the null `*dataList` out-parameter. -/
def parseDataArrayList (fuel : Nat) (buf : Buf) (pos : Nat) :
    Option (Option (List (Option (List Value))) × Nat) :=
  if pos = buf.length then Option.some (Option.none, pos)
  else
    let p := getNextToken buf pos
    if rd buf p = '{' then
      match dataArrayLoop fuel buf (p + 1) [] with
      | Option.none => Option.none
      | Option.some (entries, q) =>
        Option.some ((if entries = [] then Option.none else Option.some entries), q)
    else Option.some (Option.none, p)

/-! ## Primitive type keyword, structure driver and parse session -/

/-- The `PrimitiveTypeToken` table, in source order. -/
def primTokens : List (ValueType × Buf) :=
  [(ValueType.ddl_bool, "bool".toList),
   (ValueType.ddl_int8, "int8".toList),
   (ValueType.ddl_int16, "int16".toList),
   (ValueType.ddl_int32, "int32".toList),
   (ValueType.ddl_int64, "int64".toList),
   (ValueType.ddl_unsigned_int8, "unsigned_int8".toList),
   (ValueType.ddl_unsigned_int16, "unsigned_int16".toList),
   (ValueType.ddl_unsigned_int32, "unsigned_int32".toList),
   (ValueType.ddl_unsigned_int64, "unsigned_int64".toList),
   (ValueType.ddl_half, "half".toList),
   (ValueType.ddl_float, "float".toList),
   (ValueType.ddl_double, "double".toList),
   (ValueType.ddl_string, "string".toList),
   (ValueType.ddl_ref, "ref".toList)]

/-- Structural worker for `brScan` (gas = `buf.length - pos`). -/
def brScanG (buf : Buf) (start : Nat) : Nat → Nat → Option (Nat × Nat)
  | 0, _ => Option.none
  | gas + 1, pos =>
    if pos < buf.length then
      if rd buf (pos + 1) = ']' then Option.some ((atoiAt buf start).toNat, pos + 2)
      else brScanG buf start gas (pos + 1)
    else Option.none

/-- The `[N]` scan of `parsePrimitiveDataType`: the source advances first
and then tests for `]` (`while(in != end){ in++; if(*in == ']') ... }`),
decoding the width with `atoi` from the byte after the `[` (the `int`
result is converted to `size_t`; a negative width would wrap in C, the
model clamps it — no claim exercises that corner).  `none` models the scan
reaching the end without a `]` (the `ok` flag stays false). -/
def brScan (buf : Buf) (start pos : Nat) : Option (Nat × Nat) :=
  brScanG buf start (buf.length - pos) pos

/-- `OpenDDLParser::parsePrimitiveDataType`: the first table token that
`strncmp`-matches at the current position (a prefix match of the token
length) fixes the type; an optional `[N]` suffix sets the array width,
otherwise the width is 1; a `[` without `]` before the end resets the type
to none.  Returns (type, width, position). -/
def parsePrimitiveDataType (buf : Buf) (pos : Nat) : ValueType × Nat × Nat :=
  if pos = buf.length then (ValueType.ddl_none, 0, pos)
  else
    match primTokens.find? (fun t => strncmpZero (buf.drop pos) t.2 t.2.length) with
    | Option.none => (ValueType.ddl_none, 0, getNextToken buf pos)
    | Option.some t =>
      let p := pos + t.2.length
      if rd buf p = '[' then
        match brScan buf (p + 1) (p + 1) with
        | Option.some r => (t.1, r.1, r.2)
        | Option.none => (ValueType.ddl_none, 0, buf.length)
      else (t.1, 1, p)

/-- `OpenDDLParser::parseStructure`: expect `{`; with a primitive-typed
payload parse a data list (width 1) or a data array list (width > 1) and
attach it to the stack-top node, then check the payload's `}`; without a
type keyword recurse into header + structure for the nested structure;
a missing `{` logs and returns after one byte.  The final `in++` consumes
the structure's closing brace. -/
def parseStructure (fuel : Nat) (buf : Buf) (pos : Nat) (st : PState) :
    Option (PState × Nat) :=
  match fuel with
  | 0 => Option.none
  | fuel + 1 =>
    if pos = buf.length then Option.some (st, pos)
    else
      let p := getNextToken buf pos
      if rd buf p = '{' then
        let p1 := getNextToken buf (p + 1)
        match parsePrimitiveDataType buf p1 with
        | (ValueType.ddl_none, _, p2) =>
          match parseHeader fuel buf p2 st with
          | Option.none => Option.none
          | Option.some (st1, q) =>
            match parseStructure fuel buf q st1 with
            | Option.none => Option.none
            | Option.some (st2, r) => Option.some (st2, r + 1)
        | (_, arrayLen, p2) =>
          let p3 := getNextToken buf p2
          let step : Option (PState × Nat) :=
            if rd buf p3 = '{' then
              if arrayLen = 1 then
                match parseDataList fuel buf p3 with
                | Option.none => Option.none
                | Option.some (values, q) =>
                  let st1 :=
                    if values ≠ [] then
                      match stackTop st with
                      | Option.some i => updNode st i (fun n => { n with m_value := values })
                      | Option.none => st
                    else st
                  Option.some (st1, q)
              else if arrayLen > 1 then
                match parseDataArrayList fuel buf p3 with
                | Option.none => Option.none
                | Option.some (dtl?, q) =>
                  let st1 :=
                    match dtl? with
                    | Option.some entries =>
                      (match stackTop st with
                       | Option.some i =>
                         updNode st i (fun n => { n with m_dtArrayList := entries })
                       | Option.none => st)
                    | Option.none => st
                  Option.some (st1, q)
              else Option.some (st, p3)
            else Option.some (st, p3)
          match step with
          | Option.none => Option.none
          | Option.some (st1, p4) =>
            let p5 := getNextToken buf p4
            Option.some (st1, p5 + 1)
      else Option.some (st, p + 1)

/-- `OpenDDLParser::parseNextNode`: one header followed by one structure
body. -/
def parseNextNode (fuel : Nat) (buf : Buf) (pos : Nat) (st : PState) :
    Option (PState × Nat) :=
  match parseHeader fuel buf pos st with
  | Option.none => Option.none
  | Option.some (st1, p) => parseStructure fuel buf p st1

/-- The `while( current != end )` main loop of `parse`; the loop condition
is pointer inequality, so a position past the end keeps the loop
running. -/
def parseTop (fuel : Nat) (buf : Buf) (pos : Nat) (st : PState) : Option PState :=
  match fuel with
  | 0 => Option.none
  | fuel + 1 =>
    if pos = buf.length then Option.some st
    else
      match parseNextNode fuel buf pos st with
      | Option.none => Option.none
      | Option.some (st1, p) => parseTop fuel buf p st1

/-- The compaction loop of `normalizeBuffer`, on a functional copy of the
in-place buffer: a non-comment byte is copied to `writeIdx`, a `//`
comment is skipped to the end of its line and replaced by a single
newline.  The gas argument is the loop bound; one unit is spent per
iteration and `normalizeBuffer` supplies the buffer length, which always
suffices since `readIdx` strictly increases (the source scans for the end
of line without a bound, which past the last newline would run beyond the
buffer — the model stops at the declared length). -/
def normGo (gas : Nat) (buf out : Buf) (readIdx writeIdx : Nat) : Buf × Nat :=
  match gas with
  | 0 => (out, writeIdx)
  | gas + 1 =>
    if readIdx < buf.length then
      if isComment buf readIdx then
        let r := skipWhile (fun c => !isEndofLine c) buf (readIdx + 1)
        normGo gas buf (out.set writeIdx '\n') (r + 1) (writeIdx + 1)
      else normGo gas buf (out.set writeIdx (rd buf readIdx)) (readIdx + 1) (writeIdx + 1)
    else (out, writeIdx)

/-- `OpenDDLParser::normalizeBuffer`: compact away line comments in place;
when the content shrank, write a NUL sentinel after the surviving bytes
(the stored length `m_len` is not changed, the bytes after the sentinel
keep their old values). -/
def normalizeBuffer (buf : Buf) : Buf :=
  if buf.length = 0 then buf
  else
    let r := normGo buf.length buf buf 0 0
    if r.2 < buf.length then r.1.set r.2 '\x00' else r.1

/-- `OpenDDLParser::parse`: false for an empty buffer; otherwise
normalize, create the context with a root node, push it, and run the main
loop over the whole buffer; a terminating run always returns true.  The
second component is the session state after the run (`none` before the
context exists, i.e. for the empty-buffer return). -/
def parse (fuel : Nat) (buf : Buf) : Option (Bool × Option PState) :=
  if buf.length = 0 then Option.some (false, Option.none)
  else
    let nb := normalizeBuffer buf
    let st0 : PState := { m_nodes := [mkNode "root".toList Option.none],
                          m_stack := [0], m_ctxProperties := [] }
    match parseTop fuel nb 0 st0 with
    | Option.none => Option.none
    | Option.some st => Option.some (true, Option.some st)

/-! ## Session surface (constructors, buffer and log callback) -/

/-- A log callback pointer: null, the default console sink `logMessage`,
or a user-supplied function (distinguished by an index). -/
inductive LogCallbackV where
  | nullCB
  | logMessage
  | user (n : Nat)
deriving DecidableEq, Repr

/-- The session fields touched by the constructor/buffer/callback
surface. -/
structure Session where
  m_logCallback : LogCallbackV
  m_ownsBuffer : Bool
  m_buffer : Option Buf
  m_len : Nat
deriving DecidableEq, Repr

/-- The default constructor `OpenDDLParser()`: default sink, no buffer. -/
def emptyCtor : Session :=
  { m_logCallback := LogCallbackV.logMessage, m_ownsBuffer := false,
    m_buffer := Option.none, m_len := 0 }

/-- `OpenDDLParser::setBuffer`: free a previously owned buffer, then
deep-copy (`memcpy` of `len` bytes) when taking ownership or alias the
caller's bytes otherwise. -/
def setBuffer (s : Session) (buffer : Buf) (len : Nat) (ownsIt : Bool) : Session :=
  let s1 :=
    if s.m_buffer.isSome && s.m_ownsBuffer then
      { s with m_buffer := Option.none, m_len := 0 }
    else s
  if ownsIt then
    { s1 with m_ownsBuffer := true, m_buffer := Option.some (buffer.take len), m_len := len }
  else
    { s1 with m_ownsBuffer := false, m_buffer := Option.some buffer, m_len := len }

/-- The buffer constructor `OpenDDLParser(char*, size_t, bool)`, verbatim:
the members are initialized to null/0 first, and the body guards
`setBuffer` behind `if( 0 != m_len )` — a test of the just-zeroed member,
not of the `len` argument. -/
def bufferCtor (buffer : Buf) (len : Nat) (ownsIt : Bool) : Session :=
  let s : Session :=
    { m_logCallback := LogCallbackV.logMessage, m_ownsBuffer := false,
      m_buffer := Option.none, m_len := 0 }
  if s.m_len ≠ 0 then setBuffer s buffer len ownsIt else s

/-- `OpenDDLParser::getBuffer`. -/
def getBuffer (s : Session) : Option Buf :=
  s.m_buffer

/-- `OpenDDLParser::getBufferSize`. -/
def getBufferSize (s : Session) : Nat :=
  s.m_len

/-- `OpenDDLParser::setLogCallback`: a non-null callback is installed, a
null callback installs the default `logMessage` sink. -/
def setLogCallback (s : Session) (callback : LogCallbackV) : Session :=
  if callback ≠ LogCallbackV.nullCB then { s with m_logCallback := callback }
  else { s with m_logCallback := LogCallbackV.logMessage }

/-- `OpenDDLParser::getLogCallback`. -/
def getLogCallback (s : Session) : LogCallbackV :=
  s.m_logCallback

/-! ## Abstract literal tokens and renderings

To state the universally quantified claims about flat literal lists and
array payloads, source texts are generated from abstract literal tokens.
The renderings below produce exactly the token texts the literal parsers
consume; the well-formedness predicates state the side conditions the
claims assume ("well-formed literals"). -/

/-- One literal token of a data list: integer (digit text), float
(integer and fraction digit texts around the `.`), string (content
between the quotes), or hexadecimal (digit text after `0x`). -/
inductive LitTok where
  | int (ds : Buf)
  | flt (a b : Buf)
  | str (s : Buf)
  | hex (ds : Buf)
deriving DecidableEq, Repr

/-- The source text of one literal token. -/
def renderLit : LitTok → Buf
  | LitTok.int ds => ds
  | LitTok.flt a b => a ++ '.' :: b
  | LitTok.str s => '\"' :: (s ++ ['\"'])
  | LitTok.hex ds => '0' :: 'x' :: ds

/-- The source text of a comma-separated run of literal tokens. -/
def renderLits : List LitTok → Buf
  | [] => []
  | [l] => renderLit l
  | l :: ls => renderLit l ++ ',' :: renderLits ls

/-- Hexadecimal digit classifier (only used for well-formedness of
abstract hex tokens). -/
def isHexDigit (c : Char) : Bool :=
  isNumeric c || ('a' ≤ c && c ≤ 'f') || ('A' ≤ c && c ≤ 'F')

/-- Well-formedness of one abstract literal token: integer and hex
literals are non-empty digit runs, a float has a non-empty integer part,
and a string contains no quote byte. -/
def wfLit : LitTok → Bool
  | LitTok.int ds => !ds.isEmpty && ds.all isNumeric
  | LitTok.flt a b => !a.isEmpty && a.all isNumeric && b.all isNumeric
  | LitTok.str s => s.all (fun c => c ≠ '\"')
  | LitTok.hex ds => !ds.isEmpty && ds.all isHexDigit

/-- The value type tag each literal kind decodes to (integers and
hexadecimals to `int32`, the parameterized integer default). -/
def litTag : LitTok → ValueType
  | LitTok.int _ => ValueType.ddl_int32
  | LitTok.flt _ _ => ValueType.ddl_float
  | LitTok.str _ => ValueType.ddl_string
  | LitTok.hex _ => ValueType.ddl_int32

/-- Constructor discriminator, for stating homogeneity of a list. -/
def litKind : LitTok → Nat
  | LitTok.int _ => 0
  | LitTok.flt _ _ => 1
  | LitTok.str _ => 2
  | LitTok.hex _ => 3

/-- The decimal value of a digit run. -/
def digitsNat (ds : Buf) : Nat :=
  ds.foldl (fun a c => a * 10 + (c.toNat - '0'.toNat)) 0

/-- The `Value` node a well-formed literal token decodes to. -/
def litValue : LitTok → Value
  | LitTok.int ds =>
    ⟨ValueType.ddl_int32, VPayload.i32 (wrapSigned 32 (digitsNat ds : Int))⟩
  | LitTok.flt a b =>
    ⟨ValueType.ddl_float,
     VPayload.flt ((digitsNat a : ℚ) + (digitsNat b : ℚ) / (10 : ℚ) ^ b.length)⟩
  | LitTok.str s => ⟨ValueType.ddl_string, VPayload.str s⟩
  | LitTok.hex ds =>
    ⟨ValueType.ddl_int32, VPayload.i32 (wrapSigned 32 (hexValue ds))⟩

/-- The source text of one tuple of an array payload. -/
def renderTuple (t : List LitTok) : Buf :=
  '{' :: (renderLits t ++ ['}'])

/-- The source text of a comma-separated run of tuples. -/
def renderTuples : List (List LitTok) → Buf
  | [] => []
  | [t] => renderTuple t
  | t :: ts => renderTuple t ++ ',' :: renderTuples ts

/-- The entry list `parseDataArrayList` accumulates over successive
tuples: the first non-null chain is stored in its entry, every later
entry is linked with its chain pointer left null. -/
def arrayEntries (entries : List (Option (List Value))) :
    List (List LitTok) → List (Option (List Value))
  | [] => entries
  | t :: ts =>
    arrayEntries
      (if entries = [] then [Option.some (t.map litValue)] else entries ++ [Option.none])
      ts

/-- Fuel that suffices for `dataArrayLoop` over the given tuples. -/
def arrayFuel : List (List LitTok) → Nat
  | [] => 1
  | t :: ts => 1 + max (t.length + 2) (arrayFuel ts)

/-- Well-formedness of an identifier token: non-empty, not starting with
a digit, and free of separators, parentheses and NUL bytes (the bytes
`parseIdentifier` would stop at, plus NUL for the `strncmp`-based
comparisons). -/
def wfIdent (t : Buf) : Bool :=
  !t.isEmpty && !isNumeric (t.headD '\x00') &&
    t.all (fun c => !isSeparator c && c ≠ '(' && c ≠ ')' && c ≠ '\x00')

/-- The source text of a top-level structure `T (k = v) { }`. -/
def renderProp1 (T k v : Buf) : Buf :=
  T ++ ' ' :: '(' :: (k ++ ' ' :: '=' :: ' ' :: (v ++ ')' :: ' ' :: '{' :: ' ' :: ['}']))

/-- The property a header `(k = v)` with an integer value decodes to. -/
def intProp (k v : Buf) : Property :=
  { m_id := { m_len := k.length + 1, m_buffer := k },
    m_primData := Option.some ⟨ValueType.ddl_int32,
      VPayload.i32 (wrapSigned 32 (digitsNat v : Int))⟩,
    m_ref := Option.none }

/-- The session state at the start of the main parse loop: the arena holds
the root node and the stack holds its index. -/
def initState : PState :=
  { m_nodes := [mkNode "root".toList Option.none], m_stack := [0], m_ctxProperties := [] }

/-- The non-empty input `A{}` on which the main parse loop never
terminates: the structure parser consumes one byte past the closing brace,
the loop compares the position against the end by inequality, and every
further round advances by one byte, so the end is never hit again. -/
def bufOvershoot : Buf := ['A', '{', '}']

/-- The session state after the first main-loop round on `A{}`: the root,
the `A` node, and the empty-identifier node created for the structure's
empty body. -/
def stOver : PState :=
  { m_nodes := [mkNode "root".toList Option.none, mkNode ['A'] (Option.some 0),
      mkNode [] (Option.some 1)],
    m_stack := [0, 1, 2], m_ctxProperties := [] }

/-- The main claim `parse` never returns on the given buffer: no amount of
fuel makes the embedded run terminate. -/
def parseNeverFinishes (buf : Buf) : Prop :=
  ∀ fuel, parse fuel buf = Option.none

/-! ## Buffer read and scanner lemmas -/

theorem rd_past (buf : Buf) (pos : Nat) (h : buf.length ≤ pos) : rd buf pos = '\x00' :=
  List.getD_eq_default buf '\x00' h

theorem rd_append_right (A B : Buf) (i : Nat) : rd (A ++ B) (A.length + i) = rd B i := by
  unfold rd
  rw [List.getD_append_right A B _ _ (Nat.le_add_right _ _)]
  congr 1
  omega

theorem rd_left (A B : Buf) (i : Nat) (h : i < A.length) : rd (A ++ B) i = rd A i := by
  unfold rd
  exact List.getD_append A B _ i h

theorem rd_at (A : Buf) (c : Char) (rest : Buf) : rd (A ++ c :: rest) A.length = c := by
  have := rd_append_right A (c :: rest) 0
  simpa using this

theorem drop_take_middle (A tok rest : Buf) :
    ((A ++ (tok ++ rest)).drop A.length).take tok.length = tok := by
  rw [List.drop_left A (tok ++ rest)]
  exact List.take_left tok rest

theorem skipWhileG_zero (p : Char → Bool) (buf : Buf) (pos : Nat) :
    skipWhileG p buf 0 pos = pos := rfl

theorem skipWhileG_succ (p : Char → Bool) (buf : Buf) (g pos : Nat) :
    skipWhileG p buf (g + 1) pos =
      if pos < buf.length then
        (if p (rd buf pos) then skipWhileG p buf g (pos + 1) else pos)
      else pos := rfl

theorem skipWhile_eq (p : Char → Bool) (buf : Buf) (pos : Nat) :
    skipWhile p buf pos =
      if pos < buf.length then
        (if p (rd buf pos) then skipWhile p buf (pos + 1) else pos)
      else pos := by
  unfold skipWhile
  by_cases hlt : pos < buf.length
  · rw [if_pos hlt, show buf.length - pos = (buf.length - (pos + 1)) + 1 from by omega,
      skipWhileG_succ, if_pos hlt]
  · rw [if_neg hlt, show buf.length - pos = 0 from by omega, skipWhileG_zero]

theorem skipWhile_past (p : Char → Bool) (buf : Buf) (pos : Nat)
    (h : buf.length ≤ pos) : skipWhile p buf pos = pos := by
  rw [skipWhile_eq, if_neg (by omega)]

theorem skipWhile_stop (p : Char → Bool) (buf : Buf) (pos : Nat)
    (h : p (rd buf pos) = false) : skipWhile p buf pos = pos := by
  rw [skipWhile_eq]
  by_cases hlt : pos < buf.length
  · rw [if_pos hlt, if_neg (by simp [h])]
  · rw [if_neg hlt]

theorem skipWhile_step (p : Char → Bool) (buf : Buf) (pos : Nat)
    (hlt : pos < buf.length) (h : p (rd buf pos) = true) :
    skipWhile p buf pos = skipWhile p buf (pos + 1) := by
  rw [skipWhile_eq, if_pos hlt, if_pos h]

theorem skipWhile_chunk (p : Char → Bool) (tok : Buf) :
    ∀ (A rest : Buf), (∀ c ∈ tok, p c = true) →
      skipWhile p (A ++ (tok ++ rest)) A.length =
        skipWhile p (A ++ (tok ++ rest)) (A.length + tok.length) := by
  induction tok with
  | nil =>
    intro A rest _
    simp only [List.length_nil, Nat.add_zero]
  | cons c tok ih =>
    intro A rest htok
    have h1 : A ++ ((c :: tok) ++ rest) = (A ++ [c]) ++ (tok ++ rest) := by simp
    rw [h1]
    have hrd : rd ((A ++ [c]) ++ (tok ++ rest)) A.length = c := by
      rw [show (A ++ [c]) ++ (tok ++ rest) = A ++ (c :: (tok ++ rest)) from by simp]
      exact rd_at A c (tok ++ rest)
    have hc : p (rd ((A ++ [c]) ++ (tok ++ rest)) A.length) = true := by
      rw [hrd]; exact htok c (by simp)
    have hlen : A.length < ((A ++ [c]) ++ (tok ++ rest)).length := by
      simp only [List.length_append, List.length_cons, List.length_nil]
      omega
    rw [skipWhile_step _ _ _ hlen hc]
    rw [show A.length + 1 = (A ++ [c]).length from by simp]
    rw [ih (A ++ [c]) rest (fun d hd => htok d (by simp [hd]))]
    congr 1
    simp only [List.length_append, List.length_cons, List.length_nil]
    omega

theorem skipWhile_exact (p : Char → Bool) (A tok rest : Buf)
    (htok : ∀ c ∈ tok, p c = true)
    (hstop : p (rd (A ++ (tok ++ rest)) (A.length + tok.length)) = false ∨
      (A ++ (tok ++ rest)).length = A.length + tok.length) :
    skipWhile p (A ++ (tok ++ rest)) A.length = A.length + tok.length := by
  rw [skipWhile_chunk p tok A rest htok]
  rcases hstop with h | h
  · exact skipWhile_stop _ _ _ h
  · exact skipWhile_past _ _ _ (le_of_eq h)

theorem digitRunG_zero (buf : Buf) (pos : Nat) (acc : Bool) :
    digitRunG buf 0 pos acc = acc := rfl

theorem digitRunG_succ (buf : Buf) (g pos : Nat) (acc : Bool) :
    digitRunG buf (g + 1) pos acc =
      if pos < buf.length then
        (if isSeparator (rd buf pos) then acc
         else if isNumeric (rd buf pos) then digitRunG buf g (pos + 1) true
         else false)
      else acc := rfl

theorem digitRun_eq (buf : Buf) (pos : Nat) (acc : Bool) :
    digitRun buf pos acc =
      if pos < buf.length then
        (if isSeparator (rd buf pos) then acc
         else if isNumeric (rd buf pos) then digitRun buf (pos + 1) true
         else false)
      else acc := by
  unfold digitRun
  by_cases hlt : pos < buf.length
  · rw [if_pos hlt, show buf.length - pos = (buf.length - (pos + 1)) + 1 from by omega,
      digitRunG_succ, if_pos hlt]
  · rw [if_neg hlt, show buf.length - pos = 0 from by omega, digitRunG_zero]

theorem floatIntPartG_zero (buf : Buf) (pos : Nat) :
    floatIntPartG buf 0 pos = false := rfl

theorem floatIntPartG_succ (buf : Buf) (g pos : Nat) :
    floatIntPartG buf (g + 1) pos =
      if pos < buf.length then
        (if rd buf pos = '.' then digitRun buf (pos + 1) true
         else if isSeparator (rd buf pos) then false
         else if isNumeric (rd buf pos) then floatIntPartG buf g (pos + 1)
         else false)
      else false := rfl

theorem floatIntPart_eq (buf : Buf) (pos : Nat) :
    floatIntPart buf pos =
      if pos < buf.length then
        (if rd buf pos = '.' then digitRun buf (pos + 1) true
         else if isSeparator (rd buf pos) then false
         else if isNumeric (rd buf pos) then floatIntPart buf (pos + 1)
         else false)
      else false := by
  unfold floatIntPart
  by_cases hlt : pos < buf.length
  · rw [if_pos hlt, show buf.length - pos = (buf.length - (pos + 1)) + 1 from by omega,
      floatIntPartG_succ, if_pos hlt]
  · rw [if_neg hlt, show buf.length - pos = 0 from by omega, floatIntPartG_zero]

theorem scanDigitsG_zero (buf : Buf) (pos acc : Nat) :
    scanDigitsG buf 0 pos acc = (acc, pos) := rfl

theorem scanDigitsG_succ (buf : Buf) (g pos acc : Nat) :
    scanDigitsG buf (g + 1) pos acc =
      if pos < buf.length then
        (if isNumeric (rd buf pos) then
          scanDigitsG buf g (pos + 1) (acc * 10 + ((rd buf pos).toNat - '0'.toNat))
         else (acc, pos))
      else (acc, pos) := rfl

theorem scanDigits_eq (buf : Buf) (pos : Nat) (acc : Nat) :
    scanDigits buf pos acc =
      if pos < buf.length then
        (if isNumeric (rd buf pos) then
          scanDigits buf (pos + 1) (acc * 10 + ((rd buf pos).toNat - '0'.toNat))
         else (acc, pos))
      else (acc, pos) := by
  unfold scanDigits
  by_cases hlt : pos < buf.length
  · rw [if_pos hlt, show buf.length - pos = (buf.length - (pos + 1)) + 1 from by omega,
      scanDigitsG_succ, if_pos hlt]
  · rw [if_neg hlt, show buf.length - pos = 0 from by omega, scanDigitsG_zero]

theorem hexScanG_zero (buf : Buf) (pos : Nat) :
    hexScanG buf 0 pos = (true, pos) := rfl

theorem hexScanG_succ (buf : Buf) (g pos : Nat) :
    hexScanG buf (g + 1) pos =
      if pos < buf.length then
        (if isSeparator (rd buf pos) then (true, pos)
         else if hexBadChar (rd buf pos) then (false, pos)
         else hexScanG buf g (pos + 1))
      else (true, pos) := rfl

theorem hexScan_eq (buf : Buf) (pos : Nat) :
    hexScan buf pos =
      if pos < buf.length then
        (if isSeparator (rd buf pos) then (true, pos)
         else if hexBadChar (rd buf pos) then (false, pos)
         else hexScan buf (pos + 1))
      else (true, pos) := by
  unfold hexScan
  by_cases hlt : pos < buf.length
  · rw [if_pos hlt, show buf.length - pos = (buf.length - (pos + 1)) + 1 from by omega,
      hexScanG_succ, if_pos hlt]
  · rw [if_neg hlt, show buf.length - pos = 0 from by omega, hexScanG_zero]

/-! ## Character-class facts -/

theorem ne_of_isNumeric (c x : Char) (h : isNumeric c = true)
    (hx : isNumeric x = false) : c ≠ x := by
  intro he
  subst he
  rw [h] at hx
  cases hx

theorem sep_false_of_isNumeric (c : Char) (h : isNumeric c = true) :
    isSeparator c = false := by
  have hne : ∀ x : Char, isNumeric x = false → ¬(c = x) := fun x hx => ne_of_isNumeric c x h hx
  simp only [isSeparator, isSpace, isNewLine, Bool.or_eq_false_iff,
    decide_eq_false_iff_not]
  exact ⟨⟨⟨⟨⟨⟨⟨hne ' ' (by decide), hne '\t' (by decide)⟩,
    ⟨hne '\n' (by decide), hne '\r' (by decide)⟩⟩,
    hne ',' (by decide)⟩, hne '{' (by decide)⟩, hne '}' (by decide)⟩,
    hne '(' (by decide)⟩, hne ')' (by decide)⟩

theorem skip_false_of_isNumeric (c : Char) (h : isNumeric c = true) :
    (isSpace c || isNewLine c || c = ',') = false := by
  have hne : ∀ x : Char, isNumeric x = false → ¬(c = x) := fun x hx => ne_of_isNumeric c x h hx
  simp only [isSpace, isNewLine, Bool.or_eq_false_iff, decide_eq_false_iff_not]
  exact ⟨⟨⟨hne ' ' (by decide), hne '\t' (by decide)⟩,
    ⟨hne '\n' (by decide), hne '\r' (by decide)⟩⟩, hne ',' (by decide)⟩

theorem isNumeric_false_of_sep (c : Char) (h : isSeparator c = true) :
    isNumeric c = false := by
  simp only [isSeparator, isSpace, isNewLine, Bool.or_eq_true, decide_eq_true_eq] at h
  rcases h with ((((((he | he) | (he | he)) | he) | he) | he) | he) | he <;>
    (subst he; decide)

theorem sep_false_of_notSepTok (c : Char)
    (h : (!isSeparator c && c ≠ '(' && c ≠ ')' && c ≠ '\x00') = true) :
    isSeparator c = false := by
  simp only [Bool.and_eq_true, Bool.not_eq_true'] at h
  exact h.1.1.1

theorem skip_false_of_notSep (c : Char) (h : isSeparator c = false) :
    (isSpace c || isNewLine c || c = ',') = false := by
  simp only [isSeparator, Bool.or_eq_false_iff] at h
  simp only [Bool.or_eq_false_iff]
  exact ⟨⟨h.1.1.1.1.1.1, h.1.1.1.1.1.2⟩, h.1.1.1.1.2⟩

theorem hexBadChar_false (c : Char) : hexBadChar c = false := by
  have k1 : (decide (c < '0') && decide ('9' < c)) = false := by
    by_cases h : c < '0'
    · have h9 : ¬('9' < c) := fun hh => absurd (lt_trans hh h) (by decide)
      simp [h9]
    · simp [h]
  have k2 : (decide (c < 'a') && decide ('f' < c)) = false := by
    by_cases h : c < 'a'
    · have h9 : ¬('f' < c) := fun hh => absurd (lt_trans hh h) (by decide)
      simp [h9]
    · simp [h]
  have k3 : (decide (c < 'A') && decide ('F' < c)) = false := by
    by_cases h : c < 'A'
    · have h9 : ¬('F' < c) := fun hh => absurd (lt_trans hh h) (by decide)
      simp [h9]
    · simp [h]
  simp only [hexBadChar, k1, k2, k3, Bool.or_self, Bool.or_false]

theorem sep_false_of_isHexDigit (c : Char) (h : isHexDigit c = true) :
    isSeparator c = false := by
  simp only [isHexDigit, Bool.or_eq_true, Bool.and_eq_true, decide_eq_true_eq] at h
  rcases h with (hn | ⟨h1, h2⟩) | ⟨h1, h2⟩
  · exact sep_false_of_isNumeric c hn
  · simp only [isSeparator, isSpace, isNewLine, Bool.or_eq_false_iff,
      decide_eq_false_iff_not]
    refine ⟨⟨⟨⟨⟨⟨⟨?_, ?_⟩, ⟨?_, ?_⟩⟩, ?_⟩, ?_⟩, ?_⟩, ?_⟩, ?_⟩ <;>
      (rintro rfl; first
        | exact absurd h1 (by decide)
        | exact absurd h2 (by decide))
  · simp only [isSeparator, isSpace, isNewLine, Bool.or_eq_false_iff,
      decide_eq_false_iff_not]
    refine ⟨⟨⟨⟨⟨⟨⟨?_, ?_⟩, ⟨?_, ?_⟩⟩, ?_⟩, ?_⟩, ?_⟩, ?_⟩, ?_⟩ <;>
      (rintro rfl; first
        | exact absurd h1 (by decide)
        | exact absurd h2 (by decide))

theorem ne_of_isHexDigit (c x : Char) (h : isHexDigit c = true)
    (hx : isHexDigit x = false) : c ≠ x := by
  intro he
  subst he
  rw [h] at hx
  cases hx

/-! ## strncmp lemmas -/

theorem strncmpZero_succ (a b : Buf) (n : Nat) :
    strncmpZero a b (n + 1) =
      if a.getD 0 '\x00' ≠ b.getD 0 '\x00' then false
      else if a.getD 0 '\x00' = '\x00' then true
      else strncmpZero (a.drop 1) (b.drop 1) n := rfl

theorem strncmpZero_take_iff (tok : Buf) (hnul : ∀ c ∈ tok, ¬(c = '\x00')) :
    ∀ b : Buf, (strncmpZero tok b tok.length = true) ↔ b.take tok.length = tok := by
  induction tok with
  | nil =>
    intro b
    simp [strncmpZero]
  | cons c tok ih =>
    intro b
    have hc : ¬(c = '\x00') := hnul c (by simp)
    rw [show (c :: tok).length = tok.length + 1 from rfl, strncmpZero_succ]
    cases b with
    | nil =>
      have hne : c ≠ [].getD 0 '\x00' := by simpa using hc
      rw [show (c :: tok).getD 0 '\x00' = c from rfl, if_pos (by simpa using hne)]
      simp
    | cons d bs =>
      rw [show (c :: tok).getD 0 '\x00' = c from rfl,
        show (d :: bs).getD 0 '\x00' = d from rfl]
      by_cases hcd : c = d
      · subst hcd
        rw [if_neg (by simp), if_neg hc]
        rw [show (c :: tok).drop 1 = tok from rfl, show (c :: bs).drop 1 = bs from rfl]
        rw [ih (fun x hx => hnul x (by simp [hx])) bs]
        simp [List.take_succ_cons]
      · rw [if_pos (by simpa using hcd)]
        simp [List.take_succ_cons]
        intro he
        exact absurd he.symm hcd

theorem strncmpZero_eq_iff (b : Buf) :
    ∀ a : Buf, (∀ c ∈ a, ¬(c = '\x00')) → (∀ c ∈ b, ¬(c = '\x00')) →
      ((strncmpZero a b (b.length + 1) = true) ↔ a = b) := by
  induction b with
  | nil =>
    intro a ha _
    rw [show ([] : Buf).length + 1 = 1 from rfl, strncmpZero_succ]
    cases a with
    | nil => simp
    | cons c as =>
      have hc : ¬(c = '\x00') := ha c (by simp)
      rw [show (c :: as).getD 0 '\x00' = c from rfl,
        show ([] : Buf).getD 0 '\x00' = '\x00' from rfl, if_pos (by simpa using hc)]
      simp
  | cons d bs ih =>
    intro a ha hb
    have hd : ¬(d = '\x00') := hb d (by simp)
    rw [show (d :: bs).length + 1 = (bs.length + 1) + 1 from rfl, strncmpZero_succ]
    cases a with
    | nil =>
      rw [show ([] : Buf).getD 0 '\x00' = '\x00' from rfl,
        show (d :: bs).getD 0 '\x00' = d from rfl,
        if_pos (by simpa using fun he => hd he.symm)]
      simp
    | cons c as =>
      rw [show (c :: as).getD 0 '\x00' = c from rfl,
        show (d :: bs).getD 0 '\x00' = d from rfl]
      by_cases hcd : c = d
      · subst hcd
        have hc : ¬(c = '\x00') := ha c (by simp)
        rw [if_neg (by simp), if_neg hc]
        rw [show (c :: as).drop 1 = as from rfl, show (c :: bs).drop 1 = bs from rfl]
        rw [ih as (fun x hx => ha x (by simp [hx])) (fun x hx => hb x (by simp [hx]))]
        simp
      · rw [if_pos (by simpa using hcd)]
        simp [hcd]

/-! ## Span walking lemmas for the literal classifiers and decoders -/

theorem digitRun_walk (ds : Buf) :
    ∀ (A rest : Buf) (acc : Bool), (∀ c ∈ ds, isNumeric c = true) →
      (isSeparator (rd (A ++ (ds ++ rest)) (A.length + ds.length)) = true ∨
        (A ++ (ds ++ rest)).length = A.length + ds.length) →
      digitRun (A ++ (ds ++ rest)) A.length acc = (if ds.isEmpty then acc else true) := by
  induction ds with
  | nil =>
    intro A rest acc _ hstop
    simp only [List.isEmpty_nil, if_pos]
    rw [digitRun_eq]
    rcases hstop with h | h
    · by_cases hlt : A.length < (A ++ ([] ++ rest)).length
      · rw [if_pos hlt]
        simp only [List.length_nil, Nat.add_zero] at h
        rw [if_pos h]
      · rw [if_neg hlt]
    · simp only [List.length_nil, Nat.add_zero] at h
      rw [if_neg (by omega)]
  | cons c ds ih =>
    intro A rest acc hds hstop
    have h1 : A ++ ((c :: ds) ++ rest) = (A ++ [c]) ++ (ds ++ rest) := by simp
    rw [h1] at hstop ⊢
    have hrdc : rd ((A ++ [c]) ++ (ds ++ rest)) A.length = c := by
      rw [show (A ++ [c]) ++ (ds ++ rest) = A ++ (c :: (ds ++ rest)) from by simp]
      exact rd_at A c (ds ++ rest)
    have hcnum : isNumeric c = true := hds c (by simp)
    have hlt : A.length < ((A ++ [c]) ++ (ds ++ rest)).length := by
      simp only [List.length_append, List.length_cons, List.length_nil]
      omega
    rw [digitRun_eq, if_pos hlt, hrdc, sep_false_of_isNumeric c hcnum]
    rw [if_neg (by simp), if_pos hcnum]
    rw [show A.length + 1 = (A ++ [c]).length from by simp]
    have hstop2 : isSeparator (rd ((A ++ [c]) ++ (ds ++ rest))
        ((A ++ [c]).length + ds.length)) = true ∨
        ((A ++ [c]) ++ (ds ++ rest)).length = (A ++ [c]).length + ds.length := by
      rcases hstop with h | h
      · left
        convert h using 3
        simp only [List.length_append, List.length_cons, List.length_nil]
        omega
      · right
        rw [h]
        simp only [List.length_append, List.length_cons, List.length_nil]
        omega
    rw [ih (A ++ [c]) rest true (fun x hx => hds x (by simp [hx])) hstop2]
    simp

theorem digitRun_bad (ds : Buf) :
    ∀ (A : Buf) (x : Char) (rest : Buf) (acc : Bool),
      (∀ c ∈ ds, isNumeric c = true) →
      isSeparator x = false → isNumeric x = false →
      digitRun (A ++ (ds ++ x :: rest)) A.length acc = false := by
  induction ds with
  | nil =>
    intro A x rest acc _ hsep hnum
    have hrdx : rd (A ++ ([] ++ x :: rest)) A.length = x := rd_at A x rest
    have hlt : A.length < (A ++ ([] ++ x :: rest)).length := by
      simp only [List.nil_append, List.length_append, List.length_cons]
      omega
    rw [digitRun_eq, if_pos hlt, hrdx, hsep, if_neg (by simp), hnum]
    simp
  | cons c ds ih =>
    intro A x rest acc hds hsep hnum
    have h1 : A ++ ((c :: ds) ++ x :: rest) = (A ++ [c]) ++ (ds ++ x :: rest) := by simp
    rw [h1]
    have hrdc : rd ((A ++ [c]) ++ (ds ++ x :: rest)) A.length = c := by
      rw [show (A ++ [c]) ++ (ds ++ x :: rest) = A ++ (c :: (ds ++ x :: rest)) from by simp]
      exact rd_at A c (ds ++ x :: rest)
    have hcnum : isNumeric c = true := hds c (by simp)
    have hlt : A.length < ((A ++ [c]) ++ (ds ++ x :: rest)).length := by
      simp only [List.length_append, List.length_cons, List.length_nil]
      omega
    rw [digitRun_eq, if_pos hlt, hrdc, sep_false_of_isNumeric c hcnum]
    rw [if_neg (by simp), if_pos hcnum]
    rw [show A.length + 1 = (A ++ [c]).length from by simp]
    exact ih (A ++ [c]) x rest true (fun y hy => hds y (by simp [hy])) hsep hnum

theorem scanDigits_walk (ds : Buf) :
    ∀ (A rest : Buf) (acc : Nat), (∀ c ∈ ds, isNumeric c = true) →
      (isNumeric (rd (A ++ (ds ++ rest)) (A.length + ds.length)) = false ∨
        (A ++ (ds ++ rest)).length = A.length + ds.length) →
      scanDigits (A ++ (ds ++ rest)) A.length acc =
        (ds.foldl (fun a c => a * 10 + (c.toNat - '0'.toNat)) acc, A.length + ds.length) := by
  induction ds with
  | nil =>
    intro A rest acc _ hstop
    simp only [List.foldl_nil, List.length_nil, Nat.add_zero]
    rw [scanDigits_eq]
    rcases hstop with h | h
    · by_cases hlt : A.length < (A ++ ([] ++ rest)).length
      · rw [if_pos hlt]
        simp only [List.length_nil, Nat.add_zero] at h
        rw [h]
        simp
      · rw [if_neg hlt]
    · simp only [List.length_nil, Nat.add_zero] at h
      rw [if_neg (by omega)]
  | cons c ds ih =>
    intro A rest acc hds hstop
    have h1 : A ++ ((c :: ds) ++ rest) = (A ++ [c]) ++ (ds ++ rest) := by simp
    rw [h1] at hstop ⊢
    have hrdc : rd ((A ++ [c]) ++ (ds ++ rest)) A.length = c := by
      rw [show (A ++ [c]) ++ (ds ++ rest) = A ++ (c :: (ds ++ rest)) from by simp]
      exact rd_at A c (ds ++ rest)
    have hcnum : isNumeric c = true := hds c (by simp)
    have hlt : A.length < ((A ++ [c]) ++ (ds ++ rest)).length := by
      simp only [List.length_append, List.length_cons, List.length_nil]
      omega
    rw [scanDigits_eq, if_pos hlt, hrdc, if_pos hcnum]
    rw [show A.length + 1 = (A ++ [c]).length from by simp]
    have hstop2 : isNumeric (rd ((A ++ [c]) ++ (ds ++ rest))
        ((A ++ [c]).length + ds.length)) = false ∨
        ((A ++ [c]) ++ (ds ++ rest)).length = (A ++ [c]).length + ds.length := by
      rcases hstop with h | h
      · left
        convert h using 3
        simp only [List.length_append, List.length_cons, List.length_nil]
        omega
      · right
        rw [h]
        simp only [List.length_append, List.length_cons, List.length_nil]
        omega
    rw [ih (A ++ [c]) rest (acc * 10 + (c.toNat - '0'.toNat))
      (fun x hx => hds x (by simp [hx])) hstop2]
    simp only [List.foldl_cons, List.length_append, List.length_cons, List.length_nil,
      Prod.mk.injEq, true_and]
    omega

theorem floatIntPart_walk (a : Buf) :
    ∀ (A : Buf) (b rest : Buf), (∀ c ∈ a, isNumeric c = true) →
      (∀ c ∈ b, isNumeric c = true) →
      (isSeparator (rd (A ++ (a ++ '.' :: (b ++ rest)))
          (A.length + a.length + 1 + b.length)) = true ∨
        (A ++ (a ++ '.' :: (b ++ rest))).length = A.length + a.length + 1 + b.length) →
      floatIntPart (A ++ (a ++ '.' :: (b ++ rest))) A.length = true := by
  induction a with
  | nil =>
    intro A b rest _ hb hstop
    have hrd : rd (A ++ ([] ++ '.' :: (b ++ rest))) A.length = '.' := by
      simpa using rd_at A '.' (b ++ rest)
    have hlt : A.length < (A ++ ([] ++ '.' :: (b ++ rest))).length := by
      simp only [List.nil_append, List.length_append, List.length_cons]
      omega
    rw [floatIntPart_eq, if_pos hlt, if_pos hrd]
    have h2 : A ++ ([] ++ '.' :: (b ++ rest)) = (A ++ ['.']) ++ (b ++ rest) := by simp
    rw [show A.length + 1 = (A ++ ['.']).length from by simp]
    rw [h2]
    have hstop2 : isSeparator (rd ((A ++ ['.']) ++ (b ++ rest))
        ((A ++ ['.']).length + b.length)) = true ∨
        ((A ++ ['.']) ++ (b ++ rest)).length = (A ++ ['.']).length + b.length := by
      rw [h2] at hstop
      have hidx : A.length + ([] : Buf).length + 1 + b.length =
          (A ++ ['.']).length + b.length := by
        simp
      rw [hidx] at hstop
      exact hstop
    rw [digitRun_walk b (A ++ ['.']) rest true hb hstop2]
    cases b <;> simp
  | cons c a ih =>
    intro A b rest ha hb hstop
    have h1 : A ++ ((c :: a) ++ '.' :: (b ++ rest)) =
        (A ++ [c]) ++ (a ++ '.' :: (b ++ rest)) := by simp
    rw [h1] at hstop ⊢
    have hrdc : rd ((A ++ [c]) ++ (a ++ '.' :: (b ++ rest))) A.length = c := by
      rw [show (A ++ [c]) ++ (a ++ '.' :: (b ++ rest)) =
        A ++ (c :: (a ++ '.' :: (b ++ rest))) from by simp]
      exact rd_at A c (a ++ '.' :: (b ++ rest))
    have hcnum : isNumeric c = true := ha c (by simp)
    have hlt : A.length < ((A ++ [c]) ++ (a ++ '.' :: (b ++ rest))).length := by
      simp only [List.length_append, List.length_cons, List.length_nil]
      omega
    rw [floatIntPart_eq, if_pos hlt, hrdc,
      if_neg (ne_of_isNumeric c '.' hcnum (by decide)),
      sep_false_of_isNumeric c hcnum]
    rw [if_neg (by simp), if_pos hcnum]
    rw [show A.length + 1 = (A ++ [c]).length from by simp]
    refine ih (A ++ [c]) b rest (fun x hx => ha x (by simp [hx])) hb ?_
    rcases hstop with h | h
    · left
      convert h using 3
      simp only [List.length_append, List.length_cons, List.length_nil]
      omega
    · right
      rw [h]
      simp only [List.length_append, List.length_cons, List.length_nil]
      omega

theorem floatIntPart_bad (a : Buf) :
    ∀ (A : Buf) (x : Char) (rest : Buf),
      (∀ c ∈ a, isNumeric c = true) →
      ¬(x = '.') → isSeparator x = false → isNumeric x = false →
      floatIntPart (A ++ (a ++ x :: rest)) A.length = false := by
  induction a with
  | nil =>
    intro A x rest _ hdot hsep hnum
    have hrdx : rd (A ++ ([] ++ x :: rest)) A.length = x := rd_at A x rest
    have hlt : A.length < (A ++ ([] ++ x :: rest)).length := by
      simp only [List.nil_append, List.length_append, List.length_cons]
      omega
    rw [floatIntPart_eq, if_pos hlt, hrdx, if_neg hdot, hsep, if_neg (by simp), hnum]
    simp
  | cons c a ih =>
    intro A x rest ha hdot hsep hnum
    have h1 : A ++ ((c :: a) ++ x :: rest) = (A ++ [c]) ++ (a ++ x :: rest) := by simp
    rw [h1]
    have hrdc : rd ((A ++ [c]) ++ (a ++ x :: rest)) A.length = c := by
      rw [show (A ++ [c]) ++ (a ++ x :: rest) = A ++ (c :: (a ++ x :: rest)) from by simp]
      exact rd_at A c (a ++ x :: rest)
    have hcnum : isNumeric c = true := ha c (by simp)
    have hlt : A.length < ((A ++ [c]) ++ (a ++ x :: rest)).length := by
      simp only [List.length_append, List.length_cons, List.length_nil]
      omega
    rw [floatIntPart_eq, if_pos hlt, hrdc,
      if_neg (ne_of_isNumeric c '.' hcnum (by decide)),
      sep_false_of_isNumeric c hcnum]
    rw [if_neg (by simp), if_pos hcnum]
    rw [show A.length + 1 = (A ++ [c]).length from by simp]
    exact ih (A ++ [c]) x rest (fun y hy => ha y (by simp [hy])) hdot hsep hnum

theorem hexScan_walk (ds : Buf) :
    ∀ (A rest : Buf), (∀ c ∈ ds, isSeparator c = false) →
      (isSeparator (rd (A ++ (ds ++ rest)) (A.length + ds.length)) = true ∨
        (A ++ (ds ++ rest)).length = A.length + ds.length) →
      hexScan (A ++ (ds ++ rest)) A.length = (true, A.length + ds.length) := by
  induction ds with
  | nil =>
    intro A rest _ hstop
    simp only [List.length_nil, Nat.add_zero]
    rw [hexScan_eq]
    rcases hstop with h | h
    · by_cases hlt : A.length < (A ++ ([] ++ rest)).length
      · rw [if_pos hlt]
        simp only [List.length_nil, Nat.add_zero] at h
        rw [if_pos h]
      · rw [if_neg hlt]
    · simp only [List.length_nil, Nat.add_zero] at h
      rw [if_neg (by omega)]
  | cons c ds ih =>
    intro A rest hds hstop
    have h1 : A ++ ((c :: ds) ++ rest) = (A ++ [c]) ++ (ds ++ rest) := by simp
    rw [h1] at hstop ⊢
    have hrdc : rd ((A ++ [c]) ++ (ds ++ rest)) A.length = c := by
      rw [show (A ++ [c]) ++ (ds ++ rest) = A ++ (c :: (ds ++ rest)) from by simp]
      exact rd_at A c (ds ++ rest)
    have hlt : A.length < ((A ++ [c]) ++ (ds ++ rest)).length := by
      simp only [List.length_append, List.length_cons, List.length_nil]
      omega
    rw [hexScan_eq, if_pos hlt, hrdc, hds c (by simp), if_neg (by simp),
      hexBadChar_false c, if_neg (by simp)]
    rw [show A.length + 1 = (A ++ [c]).length from by simp]
    have hstop2 : isSeparator (rd ((A ++ [c]) ++ (ds ++ rest))
        ((A ++ [c]).length + ds.length)) = true ∨
        ((A ++ [c]) ++ (ds ++ rest)).length = (A ++ [c]).length + ds.length := by
      rcases hstop with h | h
      · left
        convert h using 3
        simp only [List.length_append, List.length_cons, List.length_nil]
        omega
      · right
        rw [h]
        simp only [List.length_append, List.length_cons, List.length_nil]
        omega
    rw [ih (A ++ [c]) rest (fun x hx => hds x (by simp [hx])) hstop2]
    simp only [List.length_append, List.length_cons, List.length_nil, Prod.mk.injEq,
      true_and]
    omega

/-! ## Classifier lemmas over token shapes -/

theorem rd_mid (A tok : Buf) (c : Char) (rest : Buf) :
    rd (A ++ (tok ++ c :: rest)) (A.length + tok.length) = c := by
  rw [show A ++ (tok ++ c :: rest) = (A ++ tok) ++ (c :: rest) from by simp,
    show A.length + tok.length = (A ++ tok).length from by simp]
  exact rd_at (A ++ tok) c rest

theorem rd_head (A : Buf) (d : Char) (tail : Buf) :
    rd (A ++ (d :: tail)) A.length = d :=
  rd_at A d tail

theorem isInteger_of_digits (A ds : Buf) (bch : Char) (rest : Buf)
    (hne : ds ≠ []) (hds : ∀ c ∈ ds, isNumeric c = true)
    (hsep : isSeparator bch = true) :
    isInteger (A ++ (ds ++ bch :: rest)) A.length = true := by
  obtain ⟨d, ds', rfl⟩ : ∃ d ds', ds = d :: ds' := by
    cases ds with
    | nil => exact absurd rfl hne
    | cons d ds' => exact ⟨d, ds', rfl⟩
  have hd : isNumeric d = true := hds d (by simp)
  have hrd : rd (A ++ ((d :: ds') ++ bch :: rest)) A.length = d := by
    rw [show (d :: ds') ++ bch :: rest = d :: (ds' ++ bch :: rest) from by simp]
    exact rd_head A d _
  unfold isInteger
  rw [hrd]
  rw [show (decide (d = '-') && decide (A.length < (A ++ ((d :: ds') ++ bch :: rest)).length))
      = false from by
    rw [decide_eq_false (ne_of_isNumeric d '-' hd (by decide))]
    simp]
  rw [if_neg (by simp)]
  have hstop : isSeparator (rd (A ++ ((d :: ds') ++ bch :: rest))
      (A.length + (d :: ds').length)) = true ∨
      (A ++ ((d :: ds') ++ bch :: rest)).length = A.length + (d :: ds').length := by
    left
    rw [rd_mid A (d :: ds') bch rest]
    exact hsep
  rw [digitRun_walk (d :: ds') A (bch :: rest) false hds hstop]
  simp

theorem isInteger_false_of_bad (A pref : Buf) (x : Char) (rest : Buf)
    (hds : ∀ c ∈ pref, isNumeric c = true)
    (hhead : rd (A ++ (pref ++ x :: rest)) A.length ≠ '-')
    (hxsep : isSeparator x = false) (hxnum : isNumeric x = false) :
    isInteger (A ++ (pref ++ x :: rest)) A.length = false := by
  unfold isInteger
  rw [show (decide (rd (A ++ (pref ++ x :: rest)) A.length = '-') &&
      decide (A.length < (A ++ (pref ++ x :: rest)).length)) = false from by
    rw [decide_eq_false hhead]
    simp]
  rw [if_neg (by simp)]
  exact digitRun_bad pref A x rest false hds hxsep hxnum

theorem isFloat_of_digits (A a b : Buf) (bch : Char) (rest : Buf)
    (hane : a ≠ []) (ha : ∀ c ∈ a, isNumeric c = true)
    (hb : ∀ c ∈ b, isNumeric c = true) (hsep : isSeparator bch = true) :
    isFloat (A ++ ((a ++ '.' :: b) ++ bch :: rest)) A.length = true := by
  obtain ⟨d, a', rfl⟩ : ∃ d a', a = d :: a' := by
    cases a with
    | nil => exact absurd rfl hane
    | cons d a' => exact ⟨d, a', rfl⟩
  have hd : isNumeric d = true := ha d (by simp)
  have hshape : (A ++ (((d :: a') ++ '.' :: b) ++ bch :: rest)) =
      A ++ ((d :: a') ++ '.' :: (b ++ bch :: rest)) := by simp
  rw [hshape]
  have hrd : rd (A ++ ((d :: a') ++ '.' :: (b ++ bch :: rest))) A.length = d := by
    rw [show (d :: a') ++ '.' :: (b ++ bch :: rest) =
      d :: (a' ++ '.' :: (b ++ bch :: rest)) from by simp]
    exact rd_head A d _
  unfold isFloat
  rw [hrd]
  rw [show (decide (d = '-') && decide (A.length <
      (A ++ ((d :: a') ++ '.' :: (b ++ bch :: rest))).length)) = false from by
    rw [decide_eq_false (ne_of_isNumeric d '-' hd (by decide))]
    simp]
  rw [if_neg (by simp)]
  refine floatIntPart_walk (d :: a') A b (bch :: rest) ha hb ?_
  left
  have hidx : A.length + (d :: a').length + 1 + b.length =
      A.length + ((d :: a') ++ '.' :: b).length := by
    simp only [List.length_append, List.length_cons]
    omega
  rw [hidx, show A ++ ((d :: a') ++ '.' :: (b ++ bch :: rest)) =
    A ++ (((d :: a') ++ '.' :: b) ++ bch :: rest) from by simp,
    rd_mid A ((d :: a') ++ '.' :: b) bch rest]
  exact hsep

theorem isFloat_false_of_bad (A pref : Buf) (x : Char) (rest : Buf)
    (hds : ∀ c ∈ pref, isNumeric c = true)
    (hhead : rd (A ++ (pref ++ x :: rest)) A.length ≠ '-')
    (hxdot : ¬(x = '.')) (hxsep : isSeparator x = false) (hxnum : isNumeric x = false) :
    isFloat (A ++ (pref ++ x :: rest)) A.length = false := by
  unfold isFloat
  rw [show (decide (rd (A ++ (pref ++ x :: rest)) A.length = '-') &&
      decide (A.length < (A ++ (pref ++ x :: rest)).length)) = false from by
    rw [decide_eq_false hhead]
    simp]
  rw [if_neg (by simp)]
  exact floatIntPart_bad pref A x rest hds hxdot hxsep hxnum

/-! ## Literal parser lemmas over token shapes -/

theorem parseIntegerLiteral_digits (A ds : Buf) (bch : Char) (rest : Buf)
    (hne : ds ≠ []) (hds : ∀ c ∈ ds, isNumeric c = true)
    (hsep : isSeparator bch = true) :
    parseIntegerLiteral (A ++ (ds ++ bch :: rest)) A.length ValueType.ddl_int32 =
      (Option.some ⟨ValueType.ddl_int32, VPayload.i32 (wrapSigned 32 (digitsNat ds : Int))⟩,
       A.length + ds.length) := by
  obtain ⟨d, ds', rfl⟩ : ∃ d ds', ds = d :: ds' := by
    cases ds with
    | nil => exact absurd rfl hne
    | cons d ds' => exact ⟨d, ds', rfl⟩
  have hd : isNumeric d = true := hds d (by simp)
  have hrd : rd (A ++ ((d :: ds') ++ bch :: rest)) A.length = d := by
    rw [show (d :: ds') ++ bch :: rest = d :: (ds' ++ bch :: rest) from by simp]
    exact rd_head A d _
  have hlen : ¬(A.length = (A ++ ((d :: ds') ++ bch :: rest)).length) := by
    simp only [List.length_append, List.length_cons]
    omega
  unfold parseIntegerLiteral
  rw [if_neg hlen, if_neg (by decide)]
  have htok : getNextToken (A ++ ((d :: ds') ++ bch :: rest)) A.length = A.length := by
    unfold getNextToken
    apply skipWhile_stop
    rw [hrd]
    exact skip_false_of_isNumeric d hd
  rw [htok]
  have hscan : skipWhile (fun c => !isSeparator c) (A ++ ((d :: ds') ++ bch :: rest))
      A.length = A.length + (d :: ds').length := by
    apply skipWhile_exact
    · intro c hc
      rw [sep_false_of_isNumeric c (hds c hc)]
      rfl
    · left
      rw [rd_mid A (d :: ds') bch rest, hsep]
      rfl
  have hatoi : atoiAt (A ++ ((d :: ds') ++ bch :: rest)) A.length =
      (digitsNat (d :: ds') : Int) := by
    unfold atoiAt
    rw [hrd, if_neg (ne_of_isNumeric d '-' hd (by decide))]
    rw [scanDigits_walk (d :: ds') A (bch :: rest) 0 hds (by
      left
      rw [rd_mid A (d :: ds') bch rest]
      exact isNumeric_false_of_sep bch hsep)]
    rfl
  simp only [hscan, hrd, hd, hatoi, if_true]

theorem parseFloatingLiteral_digits (A a b : Buf) (bch : Char) (rest : Buf)
    (hane : a ≠ []) (ha : ∀ c ∈ a, isNumeric c = true)
    (hb : ∀ c ∈ b, isNumeric c = true) (hsep : isSeparator bch = true) :
    parseFloatingLiteral (A ++ ((a ++ '.' :: b) ++ bch :: rest)) A.length =
      (Option.some ⟨ValueType.ddl_float,
        VPayload.flt ((digitsNat a : ℚ) + (digitsNat b : ℚ) / (10 : ℚ) ^ b.length)⟩,
       A.length + (a ++ '.' :: b).length) := by
  obtain ⟨d, a', rfl⟩ : ∃ d a', a = d :: a' := by
    cases a with
    | nil => exact absurd rfl hane
    | cons d a' => exact ⟨d, a', rfl⟩
  have hd : isNumeric d = true := ha d (by simp)
  have hrd : rd (A ++ (((d :: a') ++ '.' :: b) ++ bch :: rest)) A.length = d := by
    rw [show ((d :: a') ++ '.' :: b) ++ bch :: rest =
      d :: (a' ++ '.' :: b ++ bch :: rest) from by simp]
    exact rd_head A d _
  have hlen : ¬(A.length = (A ++ (((d :: a') ++ '.' :: b) ++ bch :: rest)).length) := by
    simp only [List.length_append, List.length_cons]
    omega
  unfold parseFloatingLiteral
  rw [if_neg hlen]
  have htok : getNextToken (A ++ (((d :: a') ++ '.' :: b) ++ bch :: rest)) A.length =
      A.length := by
    unfold getNextToken
    apply skipWhile_stop
    rw [hrd]
    exact skip_false_of_isNumeric d hd
  rw [htok]
  have hscan : skipWhile (fun c => !isSeparator c) (A ++ (((d :: a') ++ '.' :: b) ++ bch :: rest))
      A.length = A.length + ((d :: a') ++ '.' :: b).length := by
    apply skipWhile_exact
    · intro c hc
      have : isSeparator c = false := by
        rcases List.mem_append.mp hc with h | h
        · exact sep_false_of_isNumeric c (ha c h)
        · rcases List.mem_cons.mp h with h2 | h2
          · subst h2; decide
          · exact sep_false_of_isNumeric c (hb c h2)
      rw [this]
      rfl
    · left
      rw [rd_mid A ((d :: a') ++ '.' :: b) bch rest, hsep]
      rfl
  have hatof : atofAt (A ++ (((d :: a') ++ '.' :: b) ++ bch :: rest)) A.length =
      (digitsNat (d :: a') : ℚ) + (digitsNat b : ℚ) / (10 : ℚ) ^ b.length := by
    unfold atofAt
    rw [hrd]
    rw [if_neg (ne_of_isNumeric d '-' hd (by decide)), if_neg (ne_of_isNumeric d '-' hd (by decide))]
    have hshape : A ++ (((d :: a') ++ '.' :: b) ++ bch :: rest) =
        A ++ ((d :: a') ++ '.' :: (b ++ bch :: rest)) := by simp
    rw [hshape]
    have hip : scanDigits (A ++ ((d :: a') ++ '.' :: (b ++ bch :: rest))) A.length 0 =
        (digitsNat (d :: a'), A.length + (d :: a').length) := by
      rw [scanDigits_walk (d :: a') A ('.' :: (b ++ bch :: rest)) 0 ha (by
        left
        rw [rd_mid A (d :: a') '.' (b ++ bch :: rest)]
        decide)]
      rfl
    rw [hip]
    have hdot : rd (A ++ ((d :: a') ++ '.' :: (b ++ bch :: rest)))
        (A.length + (d :: a').length) = '.' := rd_mid A (d :: a') '.' (b ++ bch :: rest)
    rw [hdot, if_pos rfl]
    have hshape2 : A ++ ((d :: a') ++ '.' :: (b ++ bch :: rest)) =
        (A ++ (d :: a') ++ ['.']) ++ (b ++ bch :: rest) := by simp
    have hidx : A.length + (d :: a').length + 1 = (A ++ (d :: a') ++ ['.']).length := by
      simp
      omega
    have hw := scanDigits_walk b (A ++ (d :: a') ++ ['.']) (bch :: rest) 0 hb (by
      left
      rw [rd_mid (A ++ (d :: a') ++ ['.']) b bch rest]
      exact isNumeric_false_of_sep bch hsep)
    have hfp : scanDigits (A ++ ((d :: a') ++ '.' :: (b ++ bch :: rest)))
        (A.length + (d :: a').length + 1) 0 = (digitsNat b,
          A.length + (d :: a').length + 1 + b.length) := by
      rw [hshape2, hidx, hw]
      rfl
    rw [hfp]
    simp only []
    rw [show A.length + (d :: a').length + 1 + b.length -
      (A.length + (d :: a').length + 1) = b.length from by omega]
  simp only []
  rw [hscan, hrd, hd, Bool.true_or, if_pos rfl, hatof]

theorem parseStringLiteral_content (A s rest2 : Buf)
    (hs : ∀ c ∈ s, ¬(c = '\"')) :
    parseStringLiteral (A ++ (('\"' :: (s ++ ['\"'])) ++ rest2)) A.length =
      (Option.some ⟨ValueType.ddl_string, VPayload.str s⟩, A.length + (s.length + 2)) := by
  have hshape : ('\"' :: (s ++ ['\"'])) ++ rest2 = '\"' :: (s ++ ('\"' :: rest2)) := by simp
  rw [hshape]
  have hrd : rd (A ++ '\"' :: (s ++ ('\"' :: rest2))) A.length = '\"' :=
    rd_head A '\"' _
  have hlen : ¬(A.length = (A ++ '\"' :: (s ++ ('\"' :: rest2))).length) := by
    simp only [List.length_append, List.length_cons]
    omega
  unfold parseStringLiteral
  rw [if_neg hlen]
  have htok : getNextToken (A ++ '\"' :: (s ++ ('\"' :: rest2))) A.length = A.length := by
    unfold getNextToken
    apply skipWhile_stop
    rw [hrd]
    decide
  rw [htok]
  simp only []
  rw [hrd, if_pos rfl]
  have hshape2 : A ++ '\"' :: (s ++ ('\"' :: rest2)) =
      (A ++ ['\"']) ++ (s ++ ('\"' :: rest2)) := by simp
  have hidx : A.length + 1 = (A ++ ['\"']).length := by simp
  have hscan : skipWhile (fun c => c ≠ '\"') (A ++ '\"' :: (s ++ ('\"' :: rest2)))
      (A.length + 1) = A.length + 1 + s.length := by
    rw [hshape2, hidx]
    rw [skipWhile_exact (fun c => c ≠ '\"') (A ++ ['\"']) s ('\"' :: rest2)
      (fun c hc => by simpa using hs c hc)
      (by
        left
        rw [rd_mid (A ++ ['\"']) s '\"' rest2]
        simp)]
  rw [hscan]
  have hslice : ((A ++ '\"' :: (s ++ ('\"' :: rest2))).drop (A.length + 1)).take
      (A.length + 1 + s.length - (A.length + 1)) = s := by
    rw [show A.length + 1 + s.length - (A.length + 1) = s.length from by omega]
    rw [hshape2, hidx]
    exact drop_take_middle (A ++ ['\"']) s ('\"' :: rest2)
  rw [hslice]
  simp only [Prod.mk.injEq, Option.some.injEq, true_and]
  omega

theorem parseHexaLiteral_digits (A ds : Buf) (bch : Char) (rest : Buf)
    (hds : ∀ c ∈ ds, isHexDigit c = true) (hsep : isSeparator bch = true) :
    parseHexaLiteral (A ++ (('0' :: 'x' :: ds) ++ bch :: rest)) A.length =
      (Option.some ⟨ValueType.ddl_int32, VPayload.i32 (wrapSigned 32 (hexValue ds))⟩,
       A.length + (2 + ds.length)) := by
  have hshape : ('0' :: 'x' :: ds) ++ bch :: rest = '0' :: 'x' :: (ds ++ bch :: rest) := by
    simp
  rw [hshape]
  have hrd0 : rd (A ++ '0' :: 'x' :: (ds ++ bch :: rest)) A.length = '0' :=
    rd_head A '0' _
  have hrd1 : rd (A ++ '0' :: 'x' :: (ds ++ bch :: rest)) (A.length + 1) = 'x' := by
    rw [show A ++ '0' :: 'x' :: (ds ++ bch :: rest) =
      (A ++ ['0']) ++ 'x' :: (ds ++ bch :: rest) from by simp,
      show A.length + 1 = (A ++ ['0']).length from by simp]
    exact rd_at (A ++ ['0']) 'x' _
  have hlen : ¬(A.length = (A ++ '0' :: 'x' :: (ds ++ bch :: rest)).length) := by
    simp only [List.length_append, List.length_cons]
    omega
  unfold parseHexaLiteral
  rw [if_neg hlen]
  have htok : getNextToken (A ++ '0' :: 'x' :: (ds ++ bch :: rest)) A.length = A.length := by
    unfold getNextToken
    apply skipWhile_stop
    rw [hrd0]
    decide
  rw [htok]
  simp only []
  rw [hrd0, if_neg (by simp)]
  rw [hrd1]
  rw [if_neg (by simp)]
  have hshape2 : A ++ '0' :: 'x' :: (ds ++ bch :: rest) =
      (A ++ ['0', 'x']) ++ (ds ++ bch :: rest) := by simp
  have hidx : A.length + 1 + 1 = (A ++ ['0', 'x']).length := by simp
  have hscan : hexScan (A ++ '0' :: 'x' :: (ds ++ bch :: rest)) (A.length + 1 + 1) =
      (true, A.length + 1 + 1 + ds.length) := by
    rw [hshape2, hidx]
    rw [hexScan_walk ds (A ++ ['0', 'x']) (bch :: rest)
      (fun c hc => sep_false_of_isHexDigit c (hds c hc))
      (by
        left
        rw [rd_mid (A ++ ['0', 'x']) ds bch rest]
        exact hsep)]
  rw [hscan]
  simp only []
  have hslice : ((A ++ '0' :: 'x' :: (ds ++ bch :: rest)).drop (A.length + 2)).take
      (A.length + 1 + 1 + ds.length - (A.length + 2)) = ds := by
    rw [show A.length + 1 + 1 + ds.length - (A.length + 2) = ds.length from by omega]
    rw [hshape2, show A.length + 2 = (A ++ ['0', 'x']).length from by simp]
    exact drop_take_middle (A ++ ['0', 'x']) ds (bch :: rest)
  rw [hslice]
  simp only [Prod.mk.injEq, Option.some.injEq, true_and]
  omega

/-! ## The literal dispatch of `parseDataList` on one rendered token -/

theorem dataListValue_lit (l : LitTok) (A : Buf) (bch : Char) (rest : Buf)
    (hwf : wfLit l = true) (hsep : isSeparator bch = true) :
    dataListValue (A ++ (renderLit l ++ bch :: rest)) A.length =
      (Option.some (litValue l), A.length + (renderLit l).length) := by
  cases l with
  | int ds =>
    simp only [wfLit, Bool.and_eq_true, Bool.not_eq_true', List.all_eq_true] at hwf
    obtain ⟨hne0, hall⟩ := hwf
    have hne : ds ≠ [] := by
      intro he
      subst he
      simp at hne0
    have hds : ∀ c ∈ ds, isNumeric c = true := hall
    unfold dataListValue
    simp only [renderLit, litValue]
    rw [isInteger_of_digits A ds bch rest hne hds hsep, if_pos rfl]
    exact parseIntegerLiteral_digits A ds bch rest hne hds hsep
  | flt a b =>
    simp only [wfLit, Bool.and_eq_true, Bool.not_eq_true', List.all_eq_true] at hwf
    obtain ⟨⟨hne0, hax⟩, hbx⟩ := hwf
    have hane : a ≠ [] := by
      intro he
      subst he
      simp at hne0
    obtain ⟨d, a', rfl⟩ : ∃ d a', a = d :: a' := by
      cases a with
      | nil => exact absurd rfl hane
      | cons d a' => exact ⟨d, a', rfl⟩
    have hd : isNumeric d = true := hax d (by simp)
    unfold dataListValue
    simp only [renderLit, litValue]
    have hInt : isInteger (A ++ (((d :: a') ++ '.' :: b) ++ bch :: rest)) A.length = false := by
      rw [show A ++ (((d :: a') ++ '.' :: b) ++ bch :: rest) =
        A ++ ((d :: a') ++ '.' :: (b ++ bch :: rest)) from by simp]
      refine isInteger_false_of_bad A (d :: a') '.' (b ++ bch :: rest) hax ?_
        (by decide) (by decide)
      rw [show (d :: a') ++ '.' :: (b ++ bch :: rest) =
        d :: (a' ++ '.' :: (b ++ bch :: rest)) from by simp, rd_head]
      exact ne_of_isNumeric d '-' hd (by decide)
    rw [hInt, if_neg (by simp)]
    rw [isFloat_of_digits A (d :: a') b bch rest hane hax hbx hsep, if_pos rfl]
    exact parseFloatingLiteral_digits A (d :: a') b bch rest hane hax hbx hsep
  | str s =>
    simp only [wfLit, List.all_eq_true, decide_eq_true_eq] at hwf
    have hs : ∀ c ∈ s, ¬(c = '\"') := hwf
    unfold dataListValue
    simp only [renderLit, litValue]
    have hsh : ('\"' :: (s ++ ['\"'])) ++ bch :: rest =
        [] ++ '\"' :: (s ++ ('\"' :: (bch :: rest))) := by simp
    have hrd : rd (A ++ (('\"' :: (s ++ ['\"'])) ++ bch :: rest)) A.length = '\"' := by
      rw [show A ++ (('\"' :: (s ++ ['\"'])) ++ bch :: rest) =
        A ++ '\"' :: (s ++ ('\"' :: (bch :: rest))) from by simp]
      exact rd_head A '\"' _
    have hInt : isInteger (A ++ (('\"' :: (s ++ ['\"'])) ++ bch :: rest)) A.length = false := by
      rw [show A ++ (('\"' :: (s ++ ['\"'])) ++ bch :: rest) =
        A ++ ([] ++ '\"' :: (s ++ ('\"' :: (bch :: rest)))) from by simp]
      refine isInteger_false_of_bad A [] '\"' (s ++ ('\"' :: (bch :: rest)))
        (by intro c hc; cases hc) ?_ (by decide) (by decide)
      rw [show ([] : Buf) ++ '\"' :: (s ++ ('\"' :: (bch :: rest))) =
        '\"' :: (s ++ ('\"' :: (bch :: rest))) from by simp, rd_head]
      decide
    have hFlt : isFloat (A ++ (('\"' :: (s ++ ['\"'])) ++ bch :: rest)) A.length = false := by
      rw [show A ++ (('\"' :: (s ++ ['\"'])) ++ bch :: rest) =
        A ++ ([] ++ '\"' :: (s ++ ('\"' :: (bch :: rest)))) from by simp]
      refine isFloat_false_of_bad A [] '\"' (s ++ ('\"' :: (bch :: rest)))
        (by intro c hc; cases hc) ?_ (by decide) (by decide) (by decide)
      rw [show ([] : Buf) ++ '\"' :: (s ++ ('\"' :: (bch :: rest))) =
        '\"' :: (s ++ ('\"' :: (bch :: rest))) from by simp, rd_head]
      decide
    rw [hInt, if_neg (by simp), hFlt, if_neg (by simp), hrd]
    rw [if_pos (by decide)]
    have := parseStringLiteral_content A s (bch :: rest) hs
    rw [this]
    simp only [Prod.mk.injEq, true_and, List.length_cons, List.length_append,
      List.length_nil]
  | hex ds =>
    simp only [wfLit, Bool.and_eq_true, Bool.not_eq_true', List.all_eq_true] at hwf
    obtain ⟨hne0, hall⟩ := hwf
    unfold dataListValue
    simp only [renderLit, litValue]
    have hrd0 : rd (A ++ (('0' :: 'x' :: ds) ++ bch :: rest)) A.length = '0' := by
      rw [show A ++ (('0' :: 'x' :: ds) ++ bch :: rest) =
        A ++ '0' :: ('x' :: (ds ++ bch :: rest)) from by simp]
      exact rd_head A '0' _
    have hrd1 : rd (A ++ (('0' :: 'x' :: ds) ++ bch :: rest)) (A.length + 1) = 'x' := by
      rw [show A ++ (('0' :: 'x' :: ds) ++ bch :: rest) =
        (A ++ ['0']) ++ 'x' :: (ds ++ bch :: rest) from by simp,
        show A.length + 1 = (A ++ ['0']).length from by simp]
      exact rd_at (A ++ ['0']) 'x' _
    have hInt : isInteger (A ++ (('0' :: 'x' :: ds) ++ bch :: rest)) A.length = false := by
      rw [show A ++ (('0' :: 'x' :: ds) ++ bch :: rest) =
        A ++ (['0'] ++ 'x' :: (ds ++ bch :: rest)) from by simp]
      refine isInteger_false_of_bad A ['0'] 'x' (ds ++ bch :: rest)
        (by intro c hc; simp at hc; subst hc; decide) ?_ (by decide) (by decide)
      rw [show ['0'] ++ 'x' :: (ds ++ bch :: rest) =
        '0' :: ('x' :: (ds ++ bch :: rest)) from by simp, rd_head]
      decide
    have hFlt : isFloat (A ++ (('0' :: 'x' :: ds) ++ bch :: rest)) A.length = false := by
      rw [show A ++ (('0' :: 'x' :: ds) ++ bch :: rest) =
        A ++ (['0'] ++ 'x' :: (ds ++ bch :: rest)) from by simp]
      refine isFloat_false_of_bad A ['0'] 'x' (ds ++ bch :: rest)
        (by intro c hc; simp at hc; subst hc; decide) ?_ (by decide) (by decide) (by decide)
      rw [show ['0'] ++ 'x' :: (ds ++ bch :: rest) =
        '0' :: ('x' :: (ds ++ bch :: rest)) from by simp, rd_head]
      decide
    have hHex : isHexLiteral (A ++ (('0' :: 'x' :: ds) ++ bch :: rest)) A.length = true := by
      unfold isHexLiteral
      rw [hrd0, hrd1]
      have hlt : A.length + 1 < (A ++ (('0' :: 'x' :: ds) ++ bch :: rest)).length := by
        simp only [List.length_append, List.length_cons]
        omega
      simp [hlt]
    rw [hInt, if_neg (by simp), hFlt, if_neg (by simp), hrd0]
    rw [if_neg (by decide), hHex, if_pos rfl]
    have := parseHexaLiteral_digits A ds bch rest hall hsep
    rw [this]
    simp only [Prod.mk.injEq, true_and, List.length_cons]
    omega

/-! ## The `parseDataList` loop over a rendered literal run -/

theorem renderLit_head (l : LitTok) (hwf : wfLit l = true) :
    ∃ h0 t, renderLit l = h0 :: t ∧
      (isSpace h0 || isNewLine h0 || h0 = ',') = false ∧ ¬(h0 = '}') := by
  cases l with
  | int ds =>
    simp only [wfLit, Bool.and_eq_true, Bool.not_eq_true', List.all_eq_true] at hwf
    obtain ⟨hne0, hall⟩ := hwf
    obtain ⟨d, ds', rfl⟩ : ∃ d ds', ds = d :: ds' := by
      cases ds with
      | nil => simp at hne0
      | cons d ds' => exact ⟨d, ds', rfl⟩
    have hd : isNumeric d = true := hall d (by simp)
    exact ⟨d, ds', rfl, skip_false_of_isNumeric d hd, ne_of_isNumeric d '}' hd (by decide)⟩
  | flt a b =>
    simp only [wfLit, Bool.and_eq_true, Bool.not_eq_true', List.all_eq_true] at hwf
    obtain ⟨⟨hne0, hax⟩, _⟩ := hwf
    obtain ⟨d, a', rfl⟩ : ∃ d a', a = d :: a' := by
      cases a with
      | nil => simp at hne0
      | cons d a' => exact ⟨d, a', rfl⟩
    have hd : isNumeric d = true := hax d (by simp)
    exact ⟨d, a' ++ '.' :: b, by simp [renderLit], skip_false_of_isNumeric d hd,
      ne_of_isNumeric d '}' hd (by decide)⟩
  | str s =>
    exact ⟨'\"', s ++ ['\"'], rfl, by decide, by decide⟩
  | hex ds =>
    exact ⟨'0', 'x' :: ds, rfl, by decide, by decide⟩

theorem dataListLoop_succ (fuel : Nat) (buf : Buf) (pos : Nat) (acc : List Value) :
    dataListLoop (fuel + 1) buf pos acc =
      if rd buf pos = '}' then Option.some (acc, pos + 1)
      else
        let p := getNextToken buf pos
        let r0 := dataListValue buf p
        let acc' := acc ++ r0.1.toList
        let r := getNextSeparator buf r0.2
        if rd buf r ≠ ',' && rd buf r ≠ '}' && !isSpace (rd buf r) then
          Option.some (acc', r + 1)
        else dataListLoop fuel buf r acc' := rfl

theorem dlLoop_step (l : LitTok) (A : Buf) (bch : Char) (rest : Buf)
    (acc : List Value) (f : Nat) (hwf : wfLit l = true)
    (hb : bch = ',' ∨ bch = '}') :
    dataListLoop (f + 1) (A ++ (renderLit l ++ bch :: rest)) A.length acc =
      dataListLoop f (A ++ (renderLit l ++ bch :: rest))
        (A.length + (renderLit l).length) (acc ++ [litValue l]) := by
  have hsep : isSeparator bch = true := by
    rcases hb with h | h <;> (subst h; decide)
  obtain ⟨h0, t, hrender, hskip, hbrace⟩ := renderLit_head l hwf
  have hrd : rd (A ++ (renderLit l ++ bch :: rest)) A.length = h0 := by
    rw [hrender, show (h0 :: t) ++ bch :: rest = h0 :: (t ++ bch :: rest) from by simp]
    exact rd_head A h0 _
  rw [dataListLoop_succ]
  rw [if_neg (by rw [hrd]; exact hbrace)]
  have htok : getNextToken (A ++ (renderLit l ++ bch :: rest)) A.length = A.length := by
    unfold getNextToken
    apply skipWhile_stop
    rw [hrd]
    exact hskip
  rw [htok]
  simp only []
  rw [dataListValue_lit l A bch rest hwf hsep]
  simp only [Option.toList_some]
  have hmid : rd (A ++ (renderLit l ++ bch :: rest)) (A.length + (renderLit l).length) =
      bch := rd_mid A (renderLit l) bch rest
  have hgns : getNextSeparator (A ++ (renderLit l ++ bch :: rest))
      (A.length + (renderLit l).length) = A.length + (renderLit l).length := by
    unfold getNextSeparator
    apply skipWhile_stop
    rw [hmid, hsep]
    rfl
  rw [hgns]
  rw [if_neg (by
    rw [hmid]
    rcases hb with h | h <;> (subst h; decide))]

theorem dlLoop_step_comma (l : LitTok) (A : Buf) (bch : Char) (rest : Buf)
    (acc : List Value) (f : Nat) (hwf : wfLit l = true)
    (hb : bch = ',' ∨ bch = '}') :
    dataListLoop (f + 1) (A ++ (',' :: (renderLit l ++ bch :: rest))) A.length acc =
      dataListLoop f (A ++ (',' :: (renderLit l ++ bch :: rest)))
        (A.length + 1 + (renderLit l).length) (acc ++ [litValue l]) := by
  have hsep : isSeparator bch = true := by
    rcases hb with h | h <;> (subst h; decide)
  obtain ⟨h0, t, hrender, hskip, hbrace⟩ := renderLit_head l hwf
  have hrdc : rd (A ++ (',' :: (renderLit l ++ bch :: rest))) A.length = ',' :=
    rd_head A ',' _
  have hshape : A ++ (',' :: (renderLit l ++ bch :: rest)) =
      (A ++ [',']) ++ (renderLit l ++ bch :: rest) := by simp
  have hidx : A.length + 1 = (A ++ [',']).length := by simp
  have hrd1 : rd (A ++ (',' :: (renderLit l ++ bch :: rest))) (A.length + 1) = h0 := by
    rw [hshape, hidx, hrender,
      show (h0 :: t) ++ bch :: rest = h0 :: (t ++ bch :: rest) from by simp]
    exact rd_head (A ++ [',']) h0 _
  have hlt : A.length < (A ++ (',' :: (renderLit l ++ bch :: rest))).length := by
    simp only [List.length_append, List.length_cons]
    omega
  rw [dataListLoop_succ]
  rw [if_neg (by rw [hrdc]; decide)]
  have htok : getNextToken (A ++ (',' :: (renderLit l ++ bch :: rest))) A.length =
      A.length + 1 := by
    unfold getNextToken
    rw [skipWhile_step _ _ _ hlt (by rw [hrdc]; decide)]
    apply skipWhile_stop
    rw [hrd1]
    exact hskip
  rw [htok]
  simp only []
  have hdlv : dataListValue (A ++ (',' :: (renderLit l ++ bch :: rest))) (A.length + 1) =
      (Option.some (litValue l), A.length + 1 + (renderLit l).length) := by
    rw [hshape, hidx]
    rw [dataListValue_lit l (A ++ [',']) bch rest hwf hsep]
  rw [hdlv]
  simp only [Option.toList_some]
  have hmid : rd (A ++ (',' :: (renderLit l ++ bch :: rest)))
      (A.length + 1 + (renderLit l).length) = bch := by
    rw [hshape, hidx]
    exact rd_mid (A ++ [',']) (renderLit l) bch rest
  have hgns : getNextSeparator (A ++ (',' :: (renderLit l ++ bch :: rest)))
      (A.length + 1 + (renderLit l).length) = A.length + 1 + (renderLit l).length := by
    unfold getNextSeparator
    apply skipWhile_stop
    rw [hmid, hsep]
    rfl
  rw [hgns]
  rw [if_neg (by
    rw [hmid]
    rcases hb with h | h <;> (subst h; decide))]

theorem dlLoop_exit (f : Nat) (A : Buf) (rest : Buf) (acc : List Value) :
    dataListLoop (f + 1) (A ++ '}' :: rest) A.length acc =
      Option.some (acc, A.length + 1) := by
  rw [dataListLoop_succ, if_pos (rd_head A '}' rest)]

theorem dlLoop_run_comma (ls : List LitTok) :
    ∀ (A rest : Buf) (acc : List Value) (f : Nat),
      ls ≠ [] → (∀ l ∈ ls, wfLit l = true) → ls.length + 1 ≤ f →
      dataListLoop f (A ++ (',' :: (renderLits ls ++ '}' :: rest))) A.length acc =
        Option.some (acc ++ ls.map litValue,
          A.length + 1 + (renderLits ls).length + 1) := by
  induction ls with
  | nil =>
    intro A rest acc f hne _ _
    exact absurd rfl hne
  | cons l ls ih =>
    intro A rest acc f _ hwf hf
    obtain ⟨f', rfl⟩ : ∃ f', f = f' + 1 := ⟨f - 1, by omega⟩
    cases ls with
    | nil =>
      rw [show renderLits [l] = renderLit l from rfl]
      rw [dlLoop_step_comma l A '}' rest acc f' (hwf l (by simp)) (Or.inr rfl)]
      obtain ⟨f'', rfl⟩ : ∃ f'', f' = f'' + 1 := ⟨f' - 1, by simp at hf; omega⟩
      have hshape : A ++ (',' :: (renderLit l ++ '}' :: rest)) =
          (A ++ ',' :: renderLit l) ++ '}' :: rest := by simp
      have hidx : A.length + 1 + (renderLit l).length =
          (A ++ ',' :: renderLit l).length := by
        simp only [List.length_append, List.length_cons]
        omega
      rw [hshape, hidx, dlLoop_exit]
      rw [← hidx]
      simp
    | cons l2 ls' =>
      have hr : renderLits (l :: l2 :: ls') = renderLit l ++ ',' :: renderLits (l2 :: ls') :=
        rfl
      rw [hr]
      have hshape : A ++ (',' :: ((renderLit l ++ ',' :: renderLits (l2 :: ls')) ++ '}' :: rest)) =
          A ++ (',' :: (renderLit l ++ ',' :: (renderLits (l2 :: ls') ++ '}' :: rest))) := by
        simp
      rw [hshape]
      rw [dlLoop_step_comma l A ',' (renderLits (l2 :: ls') ++ '}' :: rest) acc f'
        (hwf l (by simp)) (Or.inl rfl)]
      have hshape2 : A ++ (',' :: (renderLit l ++ ',' :: (renderLits (l2 :: ls') ++ '}' :: rest))) =
          (A ++ ',' :: renderLit l) ++ (',' :: (renderLits (l2 :: ls') ++ '}' :: rest)) := by
        simp
      have hidx : A.length + 1 + (renderLit l).length =
          (A ++ ',' :: renderLit l).length := by
        simp only [List.length_append, List.length_cons]
        omega
      rw [hshape2, hidx]
      rw [ih (A ++ ',' :: renderLit l) rest (acc ++ [litValue l]) f' (by simp)
        (fun x hx => hwf x (by simp [hx])) (by simp at hf ⊢; omega)]
      simp only [List.map_cons, Option.some.injEq, Prod.mk.injEq, List.length_append,
        List.length_cons]
      constructor
      · simp
      · omega

theorem dlLoop_run (ls : List LitTok) (A rest : Buf) (acc : List Value) (f : Nat)
    (hne : ls ≠ []) (hwf : ∀ l ∈ ls, wfLit l = true) (hf : ls.length + 1 ≤ f) :
    dataListLoop f (A ++ (renderLits ls ++ '}' :: rest)) A.length acc =
      Option.some (acc ++ ls.map litValue, A.length + (renderLits ls).length + 1) := by
  obtain ⟨f', rfl⟩ : ∃ f', f = f' + 1 := ⟨f - 1, by omega⟩
  cases ls with
  | nil => exact absurd rfl hne
  | cons l ls =>
    cases ls with
    | nil =>
      rw [show renderLits [l] = renderLit l from rfl]
      rw [dlLoop_step l A '}' rest acc f' (hwf l (by simp)) (Or.inr rfl)]
      obtain ⟨f'', rfl⟩ : ∃ f'', f' = f'' + 1 := ⟨f' - 1, by simp at hf; omega⟩
      have hshape : A ++ (renderLit l ++ '}' :: rest) =
          (A ++ renderLit l) ++ '}' :: rest := by simp
      have hidx : A.length + (renderLit l).length = (A ++ renderLit l).length := by
        simp
      rw [hshape, hidx, dlLoop_exit]
      rw [← hidx]
      simp
    | cons l2 ls' =>
      have hr : renderLits (l :: l2 :: ls') = renderLit l ++ ',' :: renderLits (l2 :: ls') :=
        rfl
      rw [hr]
      have hshape : A ++ ((renderLit l ++ ',' :: renderLits (l2 :: ls')) ++ '}' :: rest) =
          A ++ (renderLit l ++ ',' :: (renderLits (l2 :: ls') ++ '}' :: rest)) := by
        simp
      rw [hshape]
      rw [dlLoop_step l A ',' (renderLits (l2 :: ls') ++ '}' :: rest) acc f'
        (hwf l (by simp)) (Or.inl rfl)]
      have hshape2 : A ++ (renderLit l ++ ',' :: (renderLits (l2 :: ls') ++ '}' :: rest)) =
          (A ++ renderLit l) ++ (',' :: (renderLits (l2 :: ls') ++ '}' :: rest)) := by
        simp
      have hidx : A.length + (renderLit l).length = (A ++ renderLit l).length := by
        simp
      rw [hshape2, hidx]
      rw [dlLoop_run_comma (l2 :: ls') (A ++ renderLit l) rest (acc ++ [litValue l]) f'
        (by simp) (fun x hx => hwf x (by simp [hx])) (by simp at hf ⊢; omega)]
      simp only [List.map_cons, Option.some.injEq, Prod.mk.injEq, List.length_append,
        List.length_cons]
      constructor
      · simp
      · omega

theorem parseDataList_run (ls : List LitTok) (A rest : Buf) (f : Nat)
    (hne : ls ≠ []) (hwf : ∀ l ∈ ls, wfLit l = true) (hf : ls.length + 1 ≤ f) :
    parseDataList f (A ++ (('{' :: (renderLits ls ++ ['}'])) ++ rest)) A.length =
      Option.some (ls.map litValue, A.length + ((renderLits ls).length + 2)) := by
  have hshape : ('{' :: (renderLits ls ++ ['}'])) ++ rest =
      '{' :: (renderLits ls ++ '}' :: rest) := by simp
  rw [hshape]
  have hrd : rd (A ++ '{' :: (renderLits ls ++ '}' :: rest)) A.length = '{' :=
    rd_head A '{' _
  have hlen : ¬(A.length = (A ++ '{' :: (renderLits ls ++ '}' :: rest)).length) := by
    simp only [List.length_append, List.length_cons]
    omega
  unfold parseDataList
  rw [if_neg hlen]
  have htok : getNextToken (A ++ '{' :: (renderLits ls ++ '}' :: rest)) A.length =
      A.length := by
    unfold getNextToken
    apply skipWhile_stop
    rw [hrd]
    decide
  rw [htok]
  simp only []
  rw [hrd, if_pos rfl]
  have hshape2 : A ++ '{' :: (renderLits ls ++ '}' :: rest) =
      (A ++ ['{']) ++ (renderLits ls ++ '}' :: rest) := by simp
  have hidx : A.length + 1 = (A ++ ['{']).length := by simp
  rw [hshape2, hidx]
  rw [dlLoop_run ls (A ++ ['{']) rest [] f hne hwf hf]
  simp only [List.nil_append, Option.some.injEq, Prod.mk.injEq, true_and,
    List.length_append, List.length_cons, List.length_nil]
  omega

theorem litValue_m_type (l : LitTok) : (litValue l).m_type = litTag l := by
  cases l <;> rfl

/-- C8: for every flat literal list `{ l1, ..., lN }` with `N ≥ 1`
well-formed literals of one homogeneous kind, `parseDataList` returns a
Value chain of length exactly `N` whose value type tags match the source
literal kinds in source order (the chain is the in-order decoding
`ls.map litValue`). -/
theorem c8_dataList_chain (ls : List LitTok) (A rest : Buf) (f : Nat)
    (hne : ls ≠ []) (hwf : ∀ l ∈ ls, wfLit l = true)
    (hhom : ∀ l1 ∈ ls, ∀ l2 ∈ ls, litKind l1 = litKind l2)
    (hf : ls.length + 1 ≤ f) :
    parseDataList f (A ++ (('{' :: (renderLits ls ++ ['}'])) ++ rest)) A.length =
      Option.some (ls.map litValue, A.length + ((renderLits ls).length + 2)) ∧
    (ls.map litValue).length = ls.length ∧
    (ls.map litValue).map Value.m_type = ls.map litTag := by
  refine ⟨parseDataList_run ls A rest f hne hwf hf, by simp, ?_⟩
  rw [List.map_map]
  exact List.map_congr_left (fun l _ => litValue_m_type l)

/-- C8 witness: the list `{1,2,3}` of three homogeneous well-formed
integer literals, parsed with fuel 4. -/
theorem c8_dataList_chain_witness :
    parseDataList 4 (([] : Buf) ++ (('{' :: (renderLits
        [LitTok.int ['1'], LitTok.int ['2'], LitTok.int ['3']] ++ ['}'])) ++ []))
      ([] : Buf).length =
      Option.some ([LitTok.int ['1'], LitTok.int ['2'], LitTok.int ['3']].map litValue,
        ([] : Buf).length + ((renderLits
          [LitTok.int ['1'], LitTok.int ['2'], LitTok.int ['3']]).length + 2)) ∧
    ([LitTok.int ['1'], LitTok.int ['2'], LitTok.int ['3']].map litValue).length =
      [LitTok.int ['1'], LitTok.int ['2'], LitTok.int ['3']].length ∧
    ([LitTok.int ['1'], LitTok.int ['2'], LitTok.int ['3']].map litValue).map Value.m_type =
      [LitTok.int ['1'], LitTok.int ['2'], LitTok.int ['3']].map litTag :=
  c8_dataList_chain [LitTok.int ['1'], LitTok.int ['2'], LitTok.int ['3']] [] [] 4
    (by decide) (by decide) (by decide) (by decide)

/-! ## The `parseDataArrayList` loop over rendered tuples -/

theorem parseDataList_run_comma (ls : List LitTok) (A rest : Buf) (f : Nat)
    (hne : ls ≠ []) (hwf : ∀ l ∈ ls, wfLit l = true) (hf : ls.length + 1 ≤ f) :
    parseDataList f (A ++ ((',' :: '{' :: (renderLits ls ++ ['}'])) ++ rest)) A.length =
      Option.some (ls.map litValue, A.length + ((renderLits ls).length + 3)) := by
  have hshape : (',' :: '{' :: (renderLits ls ++ ['}'])) ++ rest =
      ',' :: '{' :: (renderLits ls ++ '}' :: rest) := by simp
  rw [hshape]
  have hrd0 : rd (A ++ ',' :: '{' :: (renderLits ls ++ '}' :: rest)) A.length = ',' :=
    rd_head A ',' _
  have hrd1 : rd (A ++ ',' :: '{' :: (renderLits ls ++ '}' :: rest)) (A.length + 1) = '{' := by
    rw [show A ++ ',' :: '{' :: (renderLits ls ++ '}' :: rest) =
      (A ++ [',']) ++ '{' :: (renderLits ls ++ '}' :: rest) from by simp,
      show A.length + 1 = (A ++ [',']).length from by simp]
    exact rd_at (A ++ [',']) '{' _
  have hlen : ¬(A.length = (A ++ ',' :: '{' :: (renderLits ls ++ '}' :: rest)).length) := by
    simp only [List.length_append, List.length_cons]
    omega
  have hlt : A.length < (A ++ ',' :: '{' :: (renderLits ls ++ '}' :: rest)).length := by
    simp only [List.length_append, List.length_cons]
    omega
  unfold parseDataList
  rw [if_neg hlen]
  have htok : getNextToken (A ++ ',' :: '{' :: (renderLits ls ++ '}' :: rest)) A.length =
      A.length + 1 := by
    unfold getNextToken
    rw [skipWhile_step _ _ _ hlt (by rw [hrd0]; decide)]
    apply skipWhile_stop
    rw [hrd1]
    decide
  rw [htok]
  simp only []
  rw [hrd1, if_pos rfl]
  have hshape2 : A ++ ',' :: '{' :: (renderLits ls ++ '}' :: rest) =
      (A ++ [',', '{']) ++ (renderLits ls ++ '}' :: rest) := by simp
  have hidx : A.length + 1 + 1 = (A ++ [',', '{']).length := by simp
  rw [hshape2, hidx]
  rw [dlLoop_run ls (A ++ [',', '{']) rest [] f hne hwf hf]
  simp only [List.nil_append, Option.some.injEq, Prod.mk.injEq, true_and,
    List.length_append, List.length_cons, List.length_nil]
  omega

theorem dataArrayLoop_succ (fuel : Nat) (buf : Buf) (pos : Nat)
    (entries : List (Option (List Value))) :
    dataArrayLoop (fuel + 1) buf pos entries =
      match parseDataList fuel buf pos with
      | Option.none => Option.none
      | Option.some (chain, p) =>
        let entries' :=
          if chain ≠ [] then
            if entries = [] then [Option.some chain] else entries ++ [Option.none]
          else entries
        if rd buf p = ',' && p ≠ buf.length then dataArrayLoop fuel buf p entries'
        else Option.some (entries', p) := rfl

theorem arrayEntries_grow (ts : List (List LitTok)) :
    ∀ entries, entries ≠ [] →
      arrayEntries entries ts = entries ++ ts.map (fun _ => Option.none) := by
  induction ts with
  | nil =>
    intro entries _
    simp [arrayEntries]
  | cons t ts ih =>
    intro entries hne
    rw [show arrayEntries entries (t :: ts) =
      arrayEntries (if entries = [] then [Option.some (t.map litValue)]
        else entries ++ [Option.none]) ts from rfl]
    rw [if_neg hne]
    rw [ih (entries ++ [Option.none]) (by simp)]
    simp

theorem arrayEntries_nil_cons (t : List LitTok) (ts : List (List LitTok)) :
    arrayEntries [] (t :: ts) =
      Option.some (t.map litValue) :: ts.map (fun _ => Option.none) := by
  rw [show arrayEntries [] (t :: ts) =
    arrayEntries (if ([] : List (Option (List Value))) = [] then
      [Option.some (t.map litValue)] else [] ++ [Option.none]) ts from rfl]
  rw [if_pos rfl]
  rw [arrayEntries_grow ts [Option.some (t.map litValue)] (by simp)]
  simp

theorem wfTuple_chain_ne (t : List LitTok) (hne : t ≠ []) :
    t.map litValue ≠ [] := by
  cases t with
  | nil => exact absurd rfl hne
  | cons l ls => simp

theorem arLoop_run_comma (ts : List (List LitTok)) :
    ∀ (A rest : Buf) (entries : List (Option (List Value))) (f : Nat),
      ts ≠ [] → (∀ t ∈ ts, t ≠ [] ∧ ∀ l ∈ t, wfLit l = true) → arrayFuel ts ≤ f →
      dataArrayLoop f (A ++ (',' :: (renderTuples ts ++ '}' :: rest))) A.length entries =
        Option.some (arrayEntries entries ts,
          A.length + (1 + (renderTuples ts).length)) := by
  induction ts with
  | nil =>
    intro A rest entries f hne _ _
    exact absurd rfl hne
  | cons t ts ih =>
    intro A rest entries f _ hwf hf
    obtain ⟨ht1, ht2⟩ := hwf t (by simp)
    have hfuel : 1 + max (t.length + 2) (arrayFuel ts) ≤ f := hf
    have hmx1 : t.length + 2 ≤ max (t.length + 2) (arrayFuel ts) :=
      Nat.le_max_left _ _
    have hmx2 : arrayFuel ts ≤ max (t.length + 2) (arrayFuel ts) :=
      Nat.le_max_right _ _
    obtain ⟨f', rfl⟩ : ∃ f', f = f' + 1 := ⟨f - 1, by omega⟩
    rw [dataArrayLoop_succ]
    cases ts with
    | nil =>
      have hshape : A ++ (',' :: (renderTuples [t] ++ '}' :: rest)) =
          A ++ ((',' :: '{' :: (renderLits t ++ ['}'])) ++ '}' :: rest) := by
        simp [renderTuples, renderTuple]
      rw [hshape]
      rw [parseDataList_run_comma t A ('}' :: rest) f' ht1 ht2 (by omega)]
      simp only []
      have hmid : rd (A ++ ((',' :: '{' :: (renderLits t ++ ['}'])) ++ '}' :: rest))
          (A.length + ((renderLits t).length + 3)) = '}' := by
        have h2 := rd_mid A (',' :: '{' :: (renderLits t ++ ['}'])) '}' rest
        rw [show (',' :: '{' :: (renderLits t ++ ['}'])).length =
          (renderLits t).length + 3 from by simp] at h2
        exact h2
      rw [if_pos (wfTuple_chain_ne t ht1)]
      rw [if_neg (by rw [hmid]; simp)]
      rw [show arrayEntries entries [t] = (if entries = [] then
        [Option.some (t.map litValue)] else entries ++ [Option.none]) from rfl]
      simp only [Prod.mk.injEq, Option.some.injEq, true_and]
      rw [show (renderTuples [t]).length = (renderLits t).length + 2 from by
        simp [renderTuples, renderTuple]]
      omega
    | cons t2 ts' =>
      have hshape : A ++ (',' :: (renderTuples (t :: t2 :: ts') ++ '}' :: rest)) =
          A ++ ((',' :: '{' :: (renderLits t ++ ['}'])) ++
            (',' :: (renderTuples (t2 :: ts') ++ '}' :: rest))) := by
        simp [renderTuples, renderTuple]
      rw [hshape]
      rw [parseDataList_run_comma t A (',' :: (renderTuples (t2 :: ts') ++ '}' :: rest)) f'
        ht1 ht2 (by omega)]
      simp only []
      have hmid : rd (A ++ ((',' :: '{' :: (renderLits t ++ ['}'])) ++
          (',' :: (renderTuples (t2 :: ts') ++ '}' :: rest))))
          (A.length + ((renderLits t).length + 3)) = ',' := by
        have h2 := rd_mid A (',' :: '{' :: (renderLits t ++ ['}'])) ','
          (renderTuples (t2 :: ts') ++ '}' :: rest)
        rw [show (',' :: '{' :: (renderLits t ++ ['}'])).length =
          (renderLits t).length + 3 from by simp] at h2
        exact h2
      have hplen : ¬(A.length + ((renderLits t).length + 3) =
          (A ++ ((',' :: '{' :: (renderLits t ++ ['}'])) ++
            (',' :: (renderTuples (t2 :: ts') ++ '}' :: rest)))).length) := by
        simp only [List.length_append, List.length_cons]
        omega
      rw [if_pos (wfTuple_chain_ne t ht1)]
      rw [if_pos (by rw [hmid]; simp [hplen])]
      have hshape2 : A ++ ((',' :: '{' :: (renderLits t ++ ['}'])) ++
          (',' :: (renderTuples (t2 :: ts') ++ '}' :: rest))) =
          (A ++ ',' :: '{' :: (renderLits t ++ ['}'])) ++
            (',' :: (renderTuples (t2 :: ts') ++ '}' :: rest)) := by simp
      have hidx : A.length + ((renderLits t).length + 3) =
          (A ++ ',' :: '{' :: (renderLits t ++ ['}'])).length := by
        simp only [List.length_append, List.length_cons, List.length_nil]
      rw [hshape2, hidx]
      rw [ih (A ++ ',' :: '{' :: (renderLits t ++ ['}'])) rest
        (if entries = [] then [Option.some (t.map litValue)] else entries ++ [Option.none])
        f' (by simp) (fun x hx => hwf x (by simp [hx])) (by omega)]
      rw [show arrayEntries entries (t :: t2 :: ts') =
        arrayEntries (if entries = [] then [Option.some (t.map litValue)]
          else entries ++ [Option.none]) (t2 :: ts') from rfl]
      simp only [Option.some.injEq, Prod.mk.injEq, true_and]
      rw [show (renderTuples (t :: t2 :: ts')).length =
        (renderLits t).length + 2 + 1 + (renderTuples (t2 :: ts')).length from by
        simp [renderTuples, renderTuple]
        omega]
      rw [← hidx]
      omega

theorem arLoop_run (ts : List (List LitTok)) (A rest : Buf) (f : Nat)
    (hne : ts ≠ []) (hwf : ∀ t ∈ ts, t ≠ [] ∧ ∀ l ∈ t, wfLit l = true)
    (hf : arrayFuel ts ≤ f) :
    dataArrayLoop f (A ++ (renderTuples ts ++ '}' :: rest)) A.length [] =
      Option.some (arrayEntries [] ts, A.length + (renderTuples ts).length) := by
  obtain ⟨t, ts, rfl⟩ : ∃ t ts', ts = t :: ts' := by
    cases ts with
    | nil => exact absurd rfl hne
    | cons t ts' => exact ⟨t, ts', rfl⟩
  obtain ⟨ht1, ht2⟩ := hwf t (by simp)
  have hfuel : 1 + max (t.length + 2) (arrayFuel ts) ≤ f := hf
  have hmx1 : t.length + 2 ≤ max (t.length + 2) (arrayFuel ts) := Nat.le_max_left _ _
  have hmx2 : arrayFuel ts ≤ max (t.length + 2) (arrayFuel ts) := Nat.le_max_right _ _
  obtain ⟨f', rfl⟩ : ∃ f', f = f' + 1 := ⟨f - 1, by omega⟩
  rw [dataArrayLoop_succ]
  cases ts with
  | nil =>
    have hshape : A ++ (renderTuples [t] ++ '}' :: rest) =
        A ++ (('{' :: (renderLits t ++ ['}'])) ++ '}' :: rest) := by
      simp [renderTuples, renderTuple]
    rw [hshape]
    rw [parseDataList_run t A ('}' :: rest) f' ht1 ht2 (by omega)]
    simp only []
    have hmid : rd (A ++ (('{' :: (renderLits t ++ ['}'])) ++ '}' :: rest))
        (A.length + ((renderLits t).length + 2)) = '}' := by
      have h2 := rd_mid A ('{' :: (renderLits t ++ ['}'])) '}' rest
      rw [show ('{' :: (renderLits t ++ ['}'])).length =
        (renderLits t).length + 2 from by simp] at h2
      exact h2
    rw [if_pos (wfTuple_chain_ne t ht1)]
    rw [if_neg (by rw [hmid]; simp)]
    rw [show arrayEntries [] [t] =
      (if ([] : List (Option (List Value))) = [] then [Option.some (t.map litValue)]
        else [] ++ [Option.none]) from rfl]
    simp only [Prod.mk.injEq, Option.some.injEq, true_and, if_pos]
    rw [show (renderTuples [t]).length = (renderLits t).length + 2 from by
      simp [renderTuples, renderTuple]]
  | cons t2 ts' =>
    have hshape : A ++ (renderTuples (t :: t2 :: ts') ++ '}' :: rest) =
        A ++ (('{' :: (renderLits t ++ ['}'])) ++
          (',' :: (renderTuples (t2 :: ts') ++ '}' :: rest))) := by
      simp [renderTuples, renderTuple]
    rw [hshape]
    rw [parseDataList_run t A (',' :: (renderTuples (t2 :: ts') ++ '}' :: rest)) f'
      ht1 ht2 (by omega)]
    simp only []
    have hmid : rd (A ++ (('{' :: (renderLits t ++ ['}'])) ++
        (',' :: (renderTuples (t2 :: ts') ++ '}' :: rest))))
        (A.length + ((renderLits t).length + 2)) = ',' := by
      have h2 := rd_mid A ('{' :: (renderLits t ++ ['}'])) ','
        (renderTuples (t2 :: ts') ++ '}' :: rest)
      rw [show ('{' :: (renderLits t ++ ['}'])).length =
        (renderLits t).length + 2 from by simp] at h2
      exact h2
    have hplen : ¬(A.length + ((renderLits t).length + 2) =
        (A ++ (('{' :: (renderLits t ++ ['}'])) ++
          (',' :: (renderTuples (t2 :: ts') ++ '}' :: rest)))).length) := by
      simp only [List.length_append, List.length_cons]
      omega
    rw [if_pos (wfTuple_chain_ne t ht1)]
    rw [if_pos (by rw [hmid]; simp [hplen])]
    have hshape2 : A ++ (('{' :: (renderLits t ++ ['}'])) ++
        (',' :: (renderTuples (t2 :: ts') ++ '}' :: rest))) =
        (A ++ '{' :: (renderLits t ++ ['}'])) ++
          (',' :: (renderTuples (t2 :: ts') ++ '}' :: rest)) := by simp
    have hidx : A.length + ((renderLits t).length + 2) =
        (A ++ '{' :: (renderLits t ++ ['}'])).length := by
      simp only [List.length_append, List.length_cons, List.length_nil]
    rw [hshape2, hidx]
    rw [if_pos trivial]
    rw [arLoop_run_comma (t2 :: ts') (A ++ '{' :: (renderLits t ++ ['}'])) rest
      [Option.some (t.map litValue)] f' (by simp)
      (fun x hx => hwf x (by simp [hx])) (by omega)]
    rw [show arrayEntries [] (t :: t2 :: ts') =
      arrayEntries [Option.some (t.map litValue)] (t2 :: ts') from rfl]
    simp only [Option.some.injEq, Prod.mk.injEq, true_and]
    rw [show (renderTuples (t :: t2 :: ts')).length =
      (renderLits t).length + 2 + 1 + (renderTuples (t2 :: ts')).length from by
      simp [renderTuples, renderTuple]
      omega]
    rw [← hidx]
    omega

theorem parseDataArrayList_run (t : List LitTok) (ts : List (List LitTok))
    (rest : Buf) (f : Nat)
    (hwf : ∀ x ∈ t :: ts, x ≠ [] ∧ ∀ l ∈ x, wfLit l = true)
    (hf : arrayFuel (t :: ts) ≤ f) :
    parseDataArrayList f ('{' :: (renderTuples (t :: ts) ++ '}' :: rest)) 0 =
      Option.some (Option.some (Option.some (t.map litValue) ::
        ts.map (fun _ => Option.none)),
        1 + (renderTuples (t :: ts)).length) := by
  have hlen : ¬((0 : Nat) =
      ('{' :: (renderTuples (t :: ts) ++ '}' :: rest)).length) := by
    simp
  unfold parseDataArrayList
  rw [if_neg hlen]
  have hrd : rd ('{' :: (renderTuples (t :: ts) ++ '}' :: rest)) 0 = '{' := rfl
  have htok : getNextToken ('{' :: (renderTuples (t :: ts) ++ '}' :: rest)) 0 =
      0 := by
    unfold getNextToken
    apply skipWhile_stop
    rw [hrd]
    decide
  rw [htok]
  simp only []
  rw [hrd, if_pos rfl]
  have hshape2 : '{' :: (renderTuples (t :: ts) ++ '}' :: rest) =
      ['{'] ++ (renderTuples (t :: ts) ++ '}' :: rest) := rfl
  have hidx : (0 : Nat) + 1 = (['{'] : Buf).length := rfl
  rw [hshape2, hidx]
  rw [arLoop_run (t :: ts) ['{'] rest f (by simp) hwf hf]
  simp only []
  rw [arrayEntries_nil_cons t ts]
  rw [if_neg (List.cons_ne_nil _ _)]
  simp only [Option.some.injEq, Prod.mk.injEq, true_and, List.length_cons,
    List.length_nil]

/-- C9: refuted as a defect in the code.  The claim says every entry of
the returned `DataArrayList` holds a Value chain of the tuple's width;
in the code only the first entry's `m_dataList` is ever assigned (the
`else` branch of the loop in `parseDataArrayList` allocates the next
entry but never stores the freshly parsed chain in it), so for any array
payload of two or more well-formed tuples every entry after the first
carries a null chain. -/
theorem c9_array_entries_null_after_first (t t2 : List LitTok)
    (ts : List (List LitTok)) (rest : Buf) (f : Nat)
    (hwf : ∀ x ∈ t :: t2 :: ts, x ≠ [] ∧ ∀ l ∈ x, wfLit l = true)
    (hf : arrayFuel (t :: t2 :: ts) ≤ f) :
    parseDataArrayList f ('{' :: (renderTuples (t :: t2 :: ts) ++ '}' :: rest)) 0 =
      Option.some (Option.some (Option.some (t.map litValue) ::
        (t2 :: ts).map (fun _ => Option.none)),
        1 + (renderTuples (t :: t2 :: ts)).length) :=
  parseDataArrayList_run t (t2 :: ts) rest f hwf hf

theorem c9_array_entries_null_after_first_witness :
    (∀ x ∈ [[LitTok.int ['1'], LitTok.int ['2']], [LitTok.int ['3'], LitTok.int ['4']]],
      x ≠ [] ∧ ∀ l ∈ x, wfLit l = true) ∧
    (arrayFuel [[LitTok.int ['1'], LitTok.int ['2']], [LitTok.int ['3'], LitTok.int ['4']]] ≤ 6) ∧
    parseDataArrayList 6
      ('{' :: (renderTuples [[LitTok.int ['1'], LitTok.int ['2']],
        [LitTok.int ['3'], LitTok.int ['4']]] ++ '}' :: [])) 0 =
      Option.some (Option.some
        (Option.some ([LitTok.int ['1'], LitTok.int ['2']].map litValue) ::
          [[LitTok.int ['3'], LitTok.int ['4']]].map (fun _ => Option.none)),
        1 + (renderTuples [[LitTok.int ['1'], LitTok.int ['2']],
          [LitTok.int ['3'], LitTok.int ['4']]]).length) :=
  ⟨by decide, by decide,
    c9_array_entries_null_after_first [LitTok.int ['1'], LitTok.int ['2']]
      [LitTok.int ['3'], LitTok.int ['4']] [] [] 6 (by decide) (by decide)⟩

/-! ## The structure header: identifier, property scan, node creation -/

theorem wfIdent_parts (tok : Buf) (h : wfIdent tok = true) :
    tok ≠ [] ∧ isNumeric (tok.headD '\x00') = false ∧
      ∀ c ∈ tok, isSeparator c = false ∧ ¬(c = '(') ∧ ¬(c = ')') ∧ ¬(c = '\x00') := by
  simp only [wfIdent, Bool.and_eq_true, List.all_eq_true, Bool.not_eq_true',
    decide_eq_true_eq, Bool.not_eq_true, List.isEmpty_eq_false] at h
  obtain ⟨⟨h1, h2⟩, h3⟩ := h
  refine ⟨h1, h2, fun c hc => ?_⟩
  have h4 := h3 c hc
  simp only [Bool.and_eq_true, Bool.not_eq_true', decide_eq_true_eq] at h4
  exact ⟨h4.1.1.1, h4.1.1.2, h4.1.2, h4.2⟩

theorem getNextToken_space (A : Buf) (c : Char) (rest : Buf)
    (hc : (isSpace c || isNewLine c || c = ',') = false) :
    getNextToken (A ++ (' ' :: c :: rest)) A.length = A.length + 1 := by
  unfold getNextToken
  have h := skipWhile_exact (fun ch => isSpace ch || isNewLine ch || ch = ',')
    A [' '] (c :: rest)
    (by intro x hx; simp only [List.mem_singleton] at hx; subst hx; decide)
    (Or.inl (by rw [rd_mid A [' '] c rest]; exact hc))
  simpa using h

theorem parseIdentifier_run (A tok : Buf) (bch : Char) (rest : Buf)
    (htok : wfIdent tok = true) (hb : isSeparator bch = true) :
    parseIdentifier (A ++ (tok ++ bch :: rest)) A.length =
      (Option.some { m_len := tok.length + 1, m_buffer := tok },
        A.length + tok.length) := by
  obtain ⟨hne, hhead, hchars⟩ := wfIdent_parts tok htok
  obtain ⟨t, tok', rfl⟩ : ∃ t tok', tok = t :: tok' := by
    cases tok with
    | nil => exact absurd rfl hne
    | cons t tok' => exact ⟨t, tok', rfl⟩
  have hnum : isNumeric t = false := hhead
  have hsept : isSeparator t = false := (hchars t (by simp)).1
  have hlen : ¬(A.length = (A ++ ((t :: tok') ++ bch :: rest)).length) := by
    simp only [List.length_append, List.length_cons]
    omega
  unfold parseIdentifier
  rw [if_neg hlen]
  have hrd : rd (A ++ ((t :: tok') ++ bch :: rest)) A.length = t := by
    rw [show (t :: tok') ++ bch :: rest = t :: (tok' ++ bch :: rest) from by simp]
    exact rd_head A t _
  have htok0 : getNextToken (A ++ ((t :: tok') ++ bch :: rest)) A.length = A.length := by
    unfold getNextToken
    apply skipWhile_stop
    rw [hrd]
    exact skip_false_of_notSep t hsept
  rw [htok0]
  simp only []
  rw [if_neg (by rw [hrd, hnum]; simp)]
  have hq : skipWhile (fun c => !isSeparator c && c ≠ '(' && c ≠ ')')
      (A ++ ((t :: tok') ++ bch :: rest)) A.length =
      A.length + (t :: tok').length := by
    apply skipWhile_exact
    · intro c hc
      obtain ⟨hc1, hc2, hc3, _⟩ := hchars c hc
      simp only [Bool.and_eq_true, Bool.not_eq_true', decide_eq_true_eq]
      exact ⟨⟨hc1, hc2⟩, hc3⟩
    · left
      rw [rd_mid A (t :: tok') bch rest]
      simp [hb]
  rw [hq]
  rw [show A.length + (t :: tok').length - A.length = (t :: tok').length from by omega]
  rw [drop_take_middle A (t :: tok') (bch :: rest)]

theorem parseProperty_intProp (A k v rest : Buf) (f : Nat)
    (hk : wfIdent k = true) (hv1 : v ≠ []) (hv2 : ∀ c ∈ v, isNumeric c = true) :
    parseProperty f (A ++ (k ++ ' ' :: '=' :: ' ' :: (v ++ ')' :: rest))) A.length =
      Option.some (Option.some (intProp k v), A.length + k.length + 3 + v.length) := by
  obtain ⟨hkne, hkhead, hkchars⟩ := wfIdent_parts k hk
  have hlen : ¬(A.length =
      (A ++ (k ++ ' ' :: '=' :: ' ' :: (v ++ ')' :: rest))).length) := by
    simp only [List.length_append, List.length_cons]
    omega
  unfold parseProperty
  rw [if_neg hlen]
  have htok0 : getNextToken (A ++ (k ++ ' ' :: '=' :: ' ' :: (v ++ ')' :: rest)))
      A.length = A.length := by
    obtain ⟨kh, k', rfl⟩ : ∃ kh k', k = kh :: k' := by
      cases k with
      | nil => exact absurd rfl hkne
      | cons kh k' => exact ⟨kh, k', rfl⟩
    unfold getNextToken
    apply skipWhile_stop
    rw [show (kh :: k') ++ ' ' :: '=' :: ' ' :: (v ++ ')' :: rest) =
      kh :: (k' ++ ' ' :: '=' :: ' ' :: (v ++ ')' :: rest)) from by simp]
    rw [rd_head A kh _]
    exact skip_false_of_notSep kh (hkchars kh (by simp)).1
  rw [htok0]
  simp only []
  rw [parseIdentifier_run A k ' ' ('=' :: ' ' :: (v ++ ')' :: rest)) hk (by decide)]
  simp only []
  have hr : getNextToken (A ++ (k ++ ' ' :: '=' :: ' ' :: (v ++ ')' :: rest)))
      (A.length + k.length) = A.length + k.length + 1 := by
    have h := getNextToken_space (A ++ k) '=' (' ' :: (v ++ ')' :: rest)) (by decide)
    rw [show (A ++ k) ++ (' ' :: '=' :: ' ' :: (v ++ ')' :: rest)) =
      A ++ (k ++ ' ' :: '=' :: ' ' :: (v ++ ')' :: rest)) from by simp] at h
    rw [show (A ++ k).length = A.length + k.length from by simp] at h
    exact h
  rw [hr]
  have hrdeq : rd (A ++ (k ++ ' ' :: '=' :: ' ' :: (v ++ ')' :: rest)))
      (A.length + k.length + 1) = '=' := by
    have h := rd_mid A (k ++ [' ']) '=' (' ' :: (v ++ ')' :: rest))
    rw [show A ++ ((k ++ [' ']) ++ '=' :: (' ' :: (v ++ ')' :: rest))) =
      A ++ (k ++ ' ' :: '=' :: ' ' :: (v ++ ')' :: rest)) from by simp] at h
    rw [show A.length + (k ++ [' ']).length = A.length + k.length + 1 from by
      simp only [List.length_append, List.length_cons, List.length_nil]
      omega] at h
    exact h
  rw [if_pos hrdeq]
  obtain ⟨vh, v', rfl⟩ : ∃ vh v', v = vh :: v' := by
    cases v with
    | nil => exact absurd rfl hv1
    | cons vh v' => exact ⟨vh, v', rfl⟩
  have hs : getNextToken (A ++ (k ++ ' ' :: '=' :: ' ' :: ((vh :: v') ++ ')' :: rest)))
      (A.length + k.length + 1 + 1) = A.length + k.length + 3 := by
    have h := getNextToken_space (A ++ (k ++ [' ', '='])) vh (v' ++ ')' :: rest)
      (skip_false_of_isNumeric vh (hv2 vh (by simp)))
    rw [show (A ++ (k ++ [' ', '='])) ++ (' ' :: vh :: (v' ++ ')' :: rest)) =
      A ++ (k ++ ' ' :: '=' :: ' ' :: ((vh :: v') ++ ')' :: rest)) from by simp] at h
    rw [show (A ++ (k ++ [' ', '='])).length = A.length + k.length + 2 from by
      simp only [List.length_append, List.length_cons, List.length_nil]
      omega] at h
    rw [show A.length + k.length + 2 + 1 = A.length + k.length + 3 from by omega] at h
    rw [show A.length + k.length + 2 = A.length + k.length + 1 + 1 from by omega] at h
    exact h
  rw [hs]
  have hint : isInteger (A ++ (k ++ ' ' :: '=' :: ' ' :: ((vh :: v') ++ ')' :: rest)))
      (A.length + k.length + 3) = true := by
    have h := isInteger_of_digits (A ++ (k ++ [' ', '=', ' '])) (vh :: v') ')' rest
      (by simp) hv2 (by decide)
    rw [show (A ++ (k ++ [' ', '=', ' '])) ++ ((vh :: v') ++ ')' :: rest) =
      A ++ (k ++ ' ' :: '=' :: ' ' :: ((vh :: v') ++ ')' :: rest)) from by simp] at h
    rw [show (A ++ (k ++ [' ', '=', ' '])).length = A.length + k.length + 3 from by
      simp only [List.length_append, List.length_cons, List.length_nil]
      omega] at h
    exact h
  rw [if_pos hint]
  have hil : parseIntegerLiteral
      (A ++ (k ++ ' ' :: '=' :: ' ' :: ((vh :: v') ++ ')' :: rest)))
      (A.length + k.length + 3) ValueType.ddl_int32 =
      (Option.some ⟨ValueType.ddl_int32,
        VPayload.i32 (wrapSigned 32 (digitsNat (vh :: v') : Int))⟩,
       A.length + k.length + 3 + (vh :: v').length) := by
    have h := parseIntegerLiteral_digits (A ++ (k ++ [' ', '=', ' '])) (vh :: v') ')' rest
      (by simp) hv2 (by decide)
    rw [show (A ++ (k ++ [' ', '=', ' '])) ++ ((vh :: v') ++ ')' :: rest) =
      A ++ (k ++ ' ' :: '=' :: ' ' :: ((vh :: v') ++ ')' :: rest)) from by simp] at h
    rw [show (A ++ (k ++ [' ', '=', ' '])).length = A.length + k.length + 3 from by
      simp only [List.length_append, List.length_cons, List.length_nil]
      omega] at h
    exact h
  rw [hil]
  rfl

theorem propScan_succ (fuel : Nat) (buf : Buf) (pos : Nat) (acc : List Property) :
    propScan (fuel + 1) buf pos acc =
      (if rd buf pos = ')' || pos = buf.length then
        Option.some (PropScanOut.ok acc (pos + 1))
      else
        match parseProperty fuel buf pos with
        | Option.none => Option.none
        | Option.some (prop?, p) =>
          let q := getNextToken buf p
          if rd buf q ≠ ',' && rd buf q ≠ ')' then Option.some (PropScanOut.err q)
          else
            let acc' := if prop?.isSome && rd buf q ≠ ',' then acc ++ prop?.toList
              else acc
            propScan fuel buf q acc') := rfl

theorem propScan_single (T k v : Buf) (f : Nat)
    (hk : wfIdent k = true) (hv1 : v ≠ []) (hv2 : ∀ c ∈ v, isNumeric c = true)
    (hf : 2 ≤ f) :
    propScan f (renderProp1 T k v) (T.length + 2) [] =
      Option.some (PropScanOut.ok [intProp k v]
        (T.length + k.length + v.length + 6)) := by
  obtain ⟨hkne, hkhead, hkchars⟩ := wfIdent_parts k hk
  obtain ⟨f', rfl⟩ : ∃ f', f = f' + 1 + 1 := ⟨f - 2, by omega⟩
  have hshape : renderProp1 T k v =
      (T ++ [' ', '(']) ++ (k ++ ' ' :: '=' :: ' ' ::
        (v ++ ')' :: (' ' :: '{' :: ' ' :: ['}']))) := by
    simp [renderProp1]
  rw [hshape, show T.length + 2 = (T ++ [' ', '(']).length from by simp]
  rw [propScan_succ]
  have hrdk : rd ((T ++ [' ', '(']) ++ (k ++ ' ' :: '=' :: ' ' ::
      (v ++ ')' :: (' ' :: '{' :: ' ' :: ['}'])))) (T ++ [' ', '(']).length =
      k.headD '\x00' := by
    obtain ⟨kh, k', rfl⟩ : ∃ kh k', k = kh :: k' := by
      cases k with
      | nil => exact absurd rfl hkne
      | cons kh k' => exact ⟨kh, k', rfl⟩
    rw [show (kh :: k') ++ ' ' :: '=' :: ' ' :: (v ++ ')' :: (' ' :: '{' :: ' ' :: ['}'])) =
      kh :: (k' ++ ' ' :: '=' :: ' ' :: (v ++ ')' :: (' ' :: '{' :: ' ' :: ['}']))) from
      by simp]
    exact rd_head (T ++ [' ', '(']) kh _
  have hkh1 : ¬(k.headD '\x00' = ')') := by
    obtain ⟨kh, k', rfl⟩ : ∃ kh k', k = kh :: k' := by
      cases k with
      | nil => exact absurd rfl hkne
      | cons kh k' => exact ⟨kh, k', rfl⟩
    exact (hkchars kh (by simp)).2.2.1
  have hposne : ¬((T ++ [' ', '(']).length =
      ((T ++ [' ', '(']) ++ (k ++ ' ' :: '=' :: ' ' ::
        (v ++ ')' :: (' ' :: '{' :: ' ' :: ['}'])))).length) := by
    simp only [List.length_append, List.length_cons]
    omega
  rw [if_neg (by
    rw [hrdk]
    simp only [Bool.or_eq_true, decide_eq_true_eq]
    exact fun h => h.elim hkh1 hposne)]
  rw [parseProperty_intProp (T ++ [' ', '(']) k v (' ' :: '{' :: ' ' :: ['}'])
    (f' + 1) hk hv1 hv2]
  simp only []
  have hrdq : rd ((T ++ [' ', '(']) ++ (k ++ ' ' :: '=' :: ' ' ::
      (v ++ ')' :: (' ' :: '{' :: ' ' :: ['}']))))
      ((T ++ [' ', '(']).length + k.length + 3 + v.length) = ')' := by
    have h := rd_mid (T ++ [' ', '(']) (k ++ ' ' :: '=' :: ' ' :: v) ')'
      (' ' :: '{' :: ' ' :: ['}'])
    rw [show (T ++ [' ', '(']) ++ ((k ++ ' ' :: '=' :: ' ' :: v) ++ ')' ::
      (' ' :: '{' :: ' ' :: ['}'])) = (T ++ [' ', '(']) ++ (k ++ ' ' :: '=' :: ' ' ::
      (v ++ ')' :: (' ' :: '{' :: ' ' :: ['}']))) from by simp] at h
    rw [show (T ++ [' ', '(']).length + (k ++ ' ' :: '=' :: ' ' :: v).length =
      (T ++ [' ', '(']).length + k.length + 3 + v.length from by
      simp only [List.length_append, List.length_cons]
      omega] at h
    exact h
  have hqstop : getNextToken ((T ++ [' ', '(']) ++ (k ++ ' ' :: '=' :: ' ' ::
      (v ++ ')' :: (' ' :: '{' :: ' ' :: ['}']))))
      ((T ++ [' ', '(']).length + k.length + 3 + v.length) =
      (T ++ [' ', '(']).length + k.length + 3 + v.length := by
    unfold getNextToken
    apply skipWhile_stop
    rw [hrdq]
    decide
  rw [hqstop]
  rw [if_neg (by rw [hrdq]; simp)]
  rw [if_pos (by rw [hrdq]; simp)]
  rw [propScan_succ]
  rw [if_pos (by rw [hrdq]; simp)]
  simp only [Option.some.injEq, PropScanOut.ok.injEq, List.nil_append,
    Option.toList_some, List.length_append, List.length_cons, List.length_nil]
  refine ⟨trivial, by omega⟩

/-- C1: corrected.  For a top-level structure `T (k = v) { }` the
property built from `k = v` is not attached to the node created for that
structure: the source attaches the chain to `top()` — the node on top of
the stack while the header is parsed, i.e. the structure's parent (here
the root) — before `createDDLNode` runs, or to the session context when
the type identifier is exactly `Metric`.  The created node's own
property chain is empty in every case. -/
theorem c1_header_property_attaches_to_parent (T k v : Buf) (f : Nat)
    (hT : wfIdent T = true) (hk : wfIdent k = true)
    (hv1 : v ≠ []) (hv2 : ∀ c ∈ v, isNumeric c = true) (hf : 2 ≤ f) :
    parseHeader f (renderProp1 T k v) 0 initState =
      Option.some
        (if T = MetricToken then
          { m_nodes := [mkNode "root".toList Option.none, mkNode T (Option.some 0)],
            m_stack := [0, 1], m_ctxProperties := [intProp k v] }
        else
          { m_nodes := [{ mkNode "root".toList Option.none with
              m_properties := [intProp k v] }, mkNode T (Option.some 0)],
            m_stack := [0, 1], m_ctxProperties := [] },
        T.length + k.length + v.length + 7) := by
  obtain ⟨hTne, hThead, hTchars⟩ := wfIdent_parts T hT
  have hlen0 : (renderProp1 T k v).length = T.length + k.length + v.length + 10 := by
    simp only [renderProp1, List.length_append, List.length_cons, List.length_nil]
    omega
  unfold parseHeader
  rw [if_neg (by rw [hlen0]; omega)]
  have hid : parseIdentifier (renderProp1 T k v) 0 =
      (Option.some { m_len := T.length + 1, m_buffer := T }, T.length) := by
    have h := parseIdentifier_run [] T ' '
      ('(' :: (k ++ ' ' :: '=' :: ' ' :: (v ++ ')' :: ' ' :: '{' :: ' ' :: ['}'])))
      hT (by decide)
    simpa [renderProp1] using h
  rw [hid]
  simp only []
  have hp : getNextToken (renderProp1 T k v) T.length = T.length + 1 := by
    have h := getNextToken_space T '('
      (k ++ ' ' :: '=' :: ' ' :: (v ++ ')' :: ' ' :: '{' :: ' ' :: ['}'])) (by decide)
    simpa [renderProp1] using h
  rw [hp]
  have hrdp : rd (renderProp1 T k v) (T.length + 1) = '(' := by
    have h := rd_mid T [' '] '('
      (k ++ ' ' :: '=' :: ' ' :: (v ++ ')' :: ' ' :: '{' :: ' ' :: ['}']))
    simpa [renderProp1] using h
  rw [if_pos hrdp]
  rw [show T.length + 1 + 1 = T.length + 2 from by omega]
  rw [propScan_single T k v f hk hv1 hv2 hf]
  simp only []
  unfold headerFinish
  rw [if_pos (List.cons_ne_nil _ _)]
  simp only []
  have hname : parseName (renderProp1 T k v) (T.length + k.length + v.length + 6) =
      (Option.none, T.length + k.length + v.length + 7) := by
    unfold parseName
    rw [if_neg (by rw [hlen0]; omega)]
    have hg : getNextToken (renderProp1 T k v) (T.length + k.length + v.length + 6) =
        T.length + k.length + v.length + 7 := by
      have h := getNextToken_space
        (T ++ ' ' :: '(' :: (k ++ ' ' :: '=' :: ' ' :: (v ++ [')']))) '{' (' ' :: ['}'])
        (by decide)
      rw [show (T ++ ' ' :: '(' :: (k ++ ' ' :: '=' :: ' ' :: (v ++ [')']))).length =
        T.length + k.length + v.length + 6 from by
        simp only [List.length_append, List.length_cons, List.length_nil]
        omega] at h
      rw [show (T ++ ' ' :: '(' :: (k ++ ' ' :: '=' :: ' ' :: (v ++ [')']))) ++
        (' ' :: '{' :: ' ' :: ['}']) = renderProp1 T k v from by simp [renderProp1]] at h
      exact h
    rw [hg]
    simp only []
    have hrd7 : rd (renderProp1 T k v) (T.length + k.length + v.length + 7) = '{' := by
      have h := rd_head (T ++ ' ' :: '(' :: (k ++ ' ' :: '=' :: ' ' :: (v ++ [')', ' '])))
        '{' (' ' :: ['}'])
      rw [show (T ++ ' ' :: '(' :: (k ++ ' ' :: '=' :: ' ' :: (v ++ [')', ' ']))) ++
        ('{' :: (' ' :: ['}'])) = renderProp1 T k v from by simp [renderProp1]] at h
      rw [show (T ++ ' ' :: '(' :: (k ++ ' ' :: '=' :: ' ' ::
        (v ++ [')', ' ']))).length = T.length + k.length + v.length + 7 from by
        simp only [List.length_append, List.length_cons, List.length_nil]
        omega] at h
      exact h
    rw [if_pos (by rw [hrd7]; simp)]
  by_cases hMT : T = MetricToken
  · have hcond : strncmpZero MetricToken T (T.length + 1) = true := by
      subst hMT
      decide
    rw [if_pos hcond, if_pos hMT]
    rw [hname]
    rfl
  · have hcond : strncmpZero MetricToken T (T.length + 1) = false := by
      have hiff := strncmpZero_eq_iff T MetricToken (by decide)
        (fun c hc => (hTchars c hc).2.2.2)
      refine Bool.eq_false_iff.mpr (fun htrue => hMT ?_)
      exact (hiff.mp htrue).symm
    rw [if_neg (by rw [hcond]; simp), if_neg hMT]
    rw [show stackTop initState = Option.some 0 from rfl]
    simp only []
    rw [hname]
    rfl

theorem c1_header_property_attaches_to_parent_witness :
    (wfIdent ['T'] = true ∧ wfIdent ['k'] = true ∧ (['1'] : Buf) ≠ [] ∧
      (∀ c ∈ (['1'] : Buf), isNumeric c = true) ∧ 2 ≤ 2) ∧
    parseHeader 2 (renderProp1 ['T'] ['k'] ['1']) 0 initState =
      Option.some
        (if (['T'] : Buf) = MetricToken then
          { m_nodes := [mkNode "root".toList Option.none,
              mkNode ['T'] (Option.some 0)],
            m_stack := [0, 1], m_ctxProperties := [intProp ['k'] ['1']] }
        else
          { m_nodes := [{ mkNode "root".toList Option.none with
              m_properties := [intProp ['k'] ['1']] }, mkNode ['T'] (Option.some 0)],
            m_stack := [0, 1], m_ctxProperties := [] },
        (['T'] : Buf).length + (['k'] : Buf).length + (['1'] : Buf).length + 7) :=
  ⟨⟨by decide, by decide, by decide, by decide, by decide⟩,
    c1_header_property_attaches_to_parent ['T'] ['k'] ['1'] 2
      (by decide) (by decide) (by decide) (by decide) (by decide)⟩

/-- C1 counterexample to the original claim: after the full parse of
`T (k = 1) { }` the node created for the structure (arena index 1)
carries no property at all — the `k = 1` property sits on its parent,
the root node (arena index 0). -/
theorem c1_created_node_has_no_property_cex :
    ((parse 80 "T (k = 1) \x7b \x7d ".toList).map (fun r => r.2.map (fun st =>
      st.m_nodes.map (fun n => n.m_properties.map (fun pr => pr.m_id.m_buffer))))) =
      Option.some (Option.some [[['k']], [], []]) := by decide

/-! ## Past-the-end behaviour of the main parse loop -/

theorem parseTop_succ (fuel : Nat) (buf : Buf) (pos : Nat) (st : PState) :
    parseTop (fuel + 1) buf pos st =
      (if pos = buf.length then Option.some st
      else
        match parseNextNode fuel buf pos st with
        | Option.none => Option.none
        | Option.some (st1, p) => parseTop fuel buf p st1) := rfl

theorem getNextToken_past (buf : Buf) (pos : Nat) (h : buf.length ≤ pos) :
    getNextToken buf pos = pos := by
  unfold getNextToken
  exact skipWhile_past _ _ _ h

theorem parseIdentifier_past (buf : Buf) (pos : Nat) (h : buf.length < pos) :
    parseIdentifier buf pos = (Option.some { m_len := 1, m_buffer := [] }, pos) := by
  unfold parseIdentifier
  rw [if_neg (by omega)]
  rw [getNextToken_past buf pos (by omega)]
  simp only []
  rw [if_neg (by rw [rd_past buf pos (by omega)]; decide)]
  rw [skipWhile_past _ buf pos (by omega)]
  simp only [Nat.sub_self, List.take_zero, Nat.zero_add]

theorem parseName_past (buf : Buf) (pos : Nat) (h : buf.length < pos) :
    parseName buf pos = (Option.none, pos) := by
  unfold parseName
  rw [if_neg (by omega)]
  rw [getNextToken_past buf pos (by omega)]
  simp only []
  rw [if_pos (by rw [rd_past buf pos (by omega)]; decide)]

theorem parseHeader_past (f : Nat) (buf : Buf) (st : PState) (pos : Nat)
    (h : buf.length < pos) :
    ∃ st', parseHeader f buf pos st = Option.some (st', pos) := by
  unfold parseHeader
  rw [if_neg (by omega)]
  rw [parseIdentifier_past buf pos h]
  simp only []
  rw [getNextToken_past buf pos (by omega)]
  rw [if_neg (by rw [rd_past buf pos (by omega)]; decide)]
  unfold headerFinish
  rw [if_neg (by simp)]
  simp only []
  rw [parseName_past buf pos h]
  exact ⟨_, rfl⟩

theorem parseStructure_past (g : Nat) (buf : Buf) (st : PState) (pos : Nat)
    (h : buf.length < pos) :
    parseStructure (g + 1) buf pos st = Option.some (st, pos + 1) := by
  unfold parseStructure
  rw [if_neg (by omega)]
  rw [getNextToken_past buf pos (by omega)]
  simp only []
  rw [if_neg (by rw [rd_past buf pos (by omega)]; decide)]

theorem parseTop_past (f : Nat) :
    ∀ (buf : Buf) (pos : Nat) (st : PState), buf.length < pos →
      parseTop f buf pos st = Option.none := by
  induction f with
  | zero =>
    intro buf pos st h
    rfl
  | succ f ih =>
    intro buf pos st h
    rw [parseTop_succ]
    rw [if_neg (by omega)]
    unfold parseNextNode
    obtain ⟨st', hh⟩ := parseHeader_past f buf st pos h
    rw [hh]
    simp only []
    cases f with
    | zero => rfl
    | succ g =>
      rw [parseStructure_past g buf st' pos h]
      exact ih buf (pos + 1) st' (by omega)

theorem parseTop_overshoot (fuel : Nat) :
    parseTop fuel bufOvershoot 0 initState = Option.none := by
  cases fuel with
  | zero => rfl
  | succ f1 =>
    rw [parseTop_succ]
    rw [if_neg (by decide)]
    cases f1 with
    | zero => rfl
    | succ f2 =>
      cases f2 with
      | zero => rfl
      | succ f3 =>
        rw [show parseNextNode (f3 + 1 + 1) bufOvershoot 0 initState =
          Option.some (stOver, 4) from rfl]
        exact parseTop_past (f3 + 1 + 1) bufOvershoot 4 stOver (by decide)

/-- C3: refuted as a defect in the code.  The claim says `parse` returns
true for every non-empty buffer; on the non-empty input `A{}` the parse
never returns at all: the structure parser steps one byte past the
closing brace of the nested empty structure, and since the main loop
compares its position against the end by inequality (`current != end`),
every later round parses a header and a structure past the buffer end,
advancing one byte forever. -/
theorem c3_parse_hangs_on_overshoot : parseNeverFinishes bufOvershoot := by
  intro fuel
  unfold parse
  rw [if_neg (by decide)]
  simp only []
  rw [show normalizeBuffer bufOvershoot = bufOvershoot from by decide]
  rw [show ({ m_nodes := [mkNode "root".toList Option.none],
              m_stack := [0],
              m_ctxProperties := [] } : PState) = initState from rfl]
  rw [parseTop_overshoot fuel]

/-! ## Claims about the session surface and the literal parsers -/

/-- C2: refuted as a defect in the code.  The claim says a parenthesized
comma-separated run of n properties yields a chain of all n properties.
In the code `getNextToken` skips commas as well as whitespace, so after
the first property the scanner lands on the second identifier, the guard
`*in != ',' && *in != ')'` fires, and `parseHeader` error-returns without
touching the state: for `T (a = 1, b = 2) { }` the scan aborts at the
second identifier (offset 10) and no chain of two properties is ever
built. -/
theorem c2_two_properties_error_return :
    parseHeader 20 "T (a = 1, b = 2) \x7b \x7d".toList 0 initState =
      Option.some (initState, 10) := by decide

/-- C4: refuted as a defect in the code.  The buffer constructor
zero-initializes its members and then guards `setBuffer` behind
`if (0 != m_len)` — a test of the just-zeroed member instead of the `len`
argument — so the branch is dead: for every buffer, length and ownership
flag the constructed session has no buffer, size 0, and equals the
default-constructed session. -/
theorem c4_buffer_ctor_dead_branch (buffer : Buf) (len : Nat) (ownsIt : Bool) :
    getBuffer (bufferCtor buffer len ownsIt) = Option.none ∧
    getBufferSize (bufferCtor buffer len ownsIt) = 0 ∧
    bufferCtor buffer len ownsIt = emptyCtor :=
  ⟨rfl, rfl, rfl⟩

/-- C6: refuted as a defect in the code.  Each conjunct of the per-byte
validity check in `parseHexaLiteral` pairs a lower bound with a
contradictory upper bound (`*in < '0' && *in > '9'`, etc.), so the check
holds for no byte at all, and a `0x` token containing a non-hexadecimal
byte before the separator — such as `0xG` — still produces a Value
instead of leaving the out-parameter null. -/
theorem c6_hexa_accepts_nonhex_digits :
    (∀ c : Char, hexBadChar c = false) ∧
    (parseHexaLiteral ['0', 'x', 'G', ' '] 0).1 =
      Option.some ⟨ValueType.ddl_int32,
        VPayload.i32 (wrapSigned 32 (hexValue ['G']))⟩ :=
  ⟨hexBadChar_false, by decide⟩

/-- C7: the boolean literal comparison is a `strncmp` against the buffer
at the token start, i.e. a prefix match, not an exact-token match: the
parse yields the bool true Value exactly when the next 4 bytes are
`true`, else the bool false Value exactly when the next 5 bytes are
`false`, else no Value — so a longer token of which `true` is a strict
prefix (e.g. `truex`) still yields a Value, contrary to the claim's
"no Value for every token that is not exactly `true` or `false`". -/
theorem c7_boolean_literal_prefix_match (buf : Buf) (pos : Nat)
    (h : ¬(pos = buf.length)) :
    (parseBooleanLiteral buf pos).1 =
      (if (buf.drop (getNextToken buf pos)).take BoolTrue.length = BoolTrue then
        Option.some ⟨ValueType.ddl_bool, VPayload.vbool true⟩
      else if (buf.drop (getNextToken buf pos)).take BoolFalse.length = BoolFalse then
        Option.some ⟨ValueType.ddl_bool, VPayload.vbool false⟩
      else Option.none) := by
  unfold parseBooleanLiteral
  rw [if_neg h]
  simp only [strncmpZero_take_iff BoolTrue (by decide),
    strncmpZero_take_iff BoolFalse (by decide)]
  by_cases h1 : (buf.drop (getNextToken buf pos)).take BoolTrue.length = BoolTrue
  · rw [if_pos h1, if_pos h1]
  · rw [if_neg h1, if_neg h1]
    by_cases h2 : (buf.drop (getNextToken buf pos)).take BoolFalse.length = BoolFalse
    · rw [if_pos h2, if_pos h2]
    · rw [if_neg h2, if_neg h2]

theorem c7_boolean_literal_prefix_match_witness :
    ¬((0 : Nat) = ("falsey ".toList : Buf).length) ∧
    (parseBooleanLiteral "falsey ".toList 0).1 =
      (if (("falsey ".toList : Buf).drop (getNextToken "falsey ".toList 0)).take
          BoolTrue.length = BoolTrue then
        Option.some ⟨ValueType.ddl_bool, VPayload.vbool true⟩
      else if (("falsey ".toList : Buf).drop (getNextToken "falsey ".toList 0)).take
          BoolFalse.length = BoolFalse then
        Option.some ⟨ValueType.ddl_bool, VPayload.vbool false⟩
      else Option.none) :=
  ⟨by decide, c7_boolean_literal_prefix_match "falsey ".toList 0 (by decide)⟩

/-- C7 counterexample to the original claim: the token `truex` is not
exactly `true`, yet the parse yields the bool true Value. -/
theorem c7_boolean_literal_prefix_cex :
    (parseBooleanLiteral "truex ".toList 0).1 =
      Option.some ⟨ValueType.ddl_bool, VPayload.vbool true⟩ := by decide

theorem parseIdentifier_sigil (m : Char) (tok rest : Buf)
    (hm : (!isSeparator m && m ≠ '(' && m ≠ ')') = true)
    (hmn : isNumeric m = false)
    (htok : ∀ c ∈ tok, (!isSeparator c && c ≠ '(' && c ≠ ')') = true) :
    parseIdentifier (m :: (tok ++ ' ' :: rest)) 0 =
      (Option.some { m_len := tok.length + 2, m_buffer := m :: tok },
        tok.length + 1) := by
  have hlen : ¬((0 : Nat) = (m :: (tok ++ ' ' :: rest)).length) := by simp
  unfold parseIdentifier
  rw [if_neg hlen]
  have hsep : isSeparator m = false := by
    simp only [Bool.and_eq_true, Bool.not_eq_true'] at hm
    exact hm.1.1
  have hrd0 : rd (m :: (tok ++ ' ' :: rest)) 0 = m := rfl
  have htok0 : getNextToken (m :: (tok ++ ' ' :: rest)) 0 = 0 := by
    unfold getNextToken
    apply skipWhile_stop
    rw [hrd0]
    exact skip_false_of_notSep m hsep
  rw [htok0]
  simp only []
  rw [if_neg (by rw [hrd0, hmn]; simp)]
  have hq : skipWhile (fun c => !isSeparator c && c ≠ '(' && c ≠ ')')
      (m :: (tok ++ ' ' :: rest)) 0 = tok.length + 1 := by
    have h := skipWhile_exact (fun c => !isSeparator c && c ≠ '(' && c ≠ ')')
      [] (m :: tok) (' ' :: rest)
      (by
        intro c hc
        rcases List.mem_cons.mp hc with h | h
        · rw [h]; exact hm
        · exact htok c h)
      (Or.inl (by rw [rd_mid [] (m :: tok) ' ' rest]; decide))
    simp only [List.nil_append, List.cons_append, List.length_nil,
      List.length_cons, Nat.zero_add] at h
    exact h
  rw [hq]
  simp only [Nat.sub_zero, List.drop_zero, Prod.mk.injEq, Option.some.injEq]
  refine ⟨?_, trivial⟩
  rw [List.take_succ_cons, List.take_left]

theorem parseName_sigil (m : Char) (tok rest : Buf)
    (hm : (!isSeparator m && m ≠ '(' && m ≠ ')') = true)
    (hmn : isNumeric m = false)
    (hmark : m = '$' ∨ m = '%')
    (htok : ∀ c ∈ tok, (!isSeparator c && c ≠ '(' && c ≠ ')') = true) :
    parseName (m :: (tok ++ ' ' :: rest)) 0 =
      (Option.some
          { m_type := if m = '%' then NameType.LocalName else NameType.GlobalName,
            m_id := { m_len := tok.length + 2, m_buffer := m :: tok } },
        tok.length + 1) := by
  have hlen : ¬((0 : Nat) = (m :: (tok ++ ' ' :: rest)).length) := by simp
  unfold parseName
  rw [if_neg hlen]
  have hsep : isSeparator m = false := by
    simp only [Bool.and_eq_true, Bool.not_eq_true'] at hm
    exact hm.1.1
  have hrd0 : rd (m :: (tok ++ ' ' :: rest)) 0 = m := rfl
  have htok0 : getNextToken (m :: (tok ++ ' ' :: rest)) 0 = 0 := by
    unfold getNextToken
    apply skipWhile_stop
    rw [hrd0]
    exact skip_false_of_notSep m hsep
  rw [htok0]
  simp only []
  rw [if_neg (by
    rw [hrd0]
    rcases hmark with h | h <;> subst h <;> decide)]
  rw [hrd0]
  rw [parseIdentifier_sigil m tok rest hm hmn htok]

/-- C5: corrected.  The scope parts of the claim hold — a `$` token
records Global scope, a `%` token records Local scope, and on any other
next byte `parseName` yields no name and consumes nothing beyond skipped
whitespace — but the stored identifier keeps the sigil: the source passes
the marker's own position to `parseIdentifier`, so the display name of
the node parsed from `Cube $box { }` is `$box`, not `box`. -/
theorem c5_name_sigil_kept (tok rest : Buf)
    (htok : ∀ c ∈ tok, (!isSeparator c && c ≠ '(' && c ≠ ')') = true) :
    parseName ('$' :: (tok ++ ' ' :: rest)) 0 =
      (Option.some
          { m_type := NameType.GlobalName,
            m_id := { m_len := tok.length + 2, m_buffer := '$' :: tok } },
        tok.length + 1) ∧
    parseName ('%' :: (tok ++ ' ' :: rest)) 0 =
      (Option.some
          { m_type := NameType.LocalName,
            m_id := { m_len := tok.length + 2, m_buffer := '%' :: tok } },
        tok.length + 1) ∧
    (∀ (buf : Buf) (pos : Nat), ¬(pos = buf.length) →
      ¬(rd buf (getNextToken buf pos) = '$') →
      ¬(rd buf (getNextToken buf pos) = '%') →
      parseName buf pos = (Option.none, getNextToken buf pos)) := by
  refine ⟨?_, ?_, ?_⟩
  · have h := parseName_sigil '$' tok rest (by decide) (by decide) (Or.inl rfl) htok
    rw [if_neg (by decide)] at h
    exact h
  · have h := parseName_sigil '%' tok rest (by decide) (by decide) (Or.inr rfl) htok
    rw [if_pos rfl] at h
    exact h
  · intro buf pos h h1 h2
    unfold parseName
    rw [if_neg h]
    simp only []
    rw [if_pos (by simp [h1, h2])]

theorem c5_name_sigil_kept_witness :
    (∀ c ∈ ("box".toList : Buf), (!isSeparator c && c ≠ '(' && c ≠ ')') = true) ∧
    (parseName ('$' :: ("box".toList ++ ' ' :: ([] : Buf))) 0 =
      (Option.some
          { m_type := NameType.GlobalName,
            m_id := { m_len := ("box".toList : Buf).length + 2,
                      m_buffer := '$' :: "box".toList } },
        ("box".toList : Buf).length + 1) ∧
    parseName ('%' :: ("box".toList ++ ' ' :: ([] : Buf))) 0 =
      (Option.some
          { m_type := NameType.LocalName,
            m_id := { m_len := ("box".toList : Buf).length + 2,
                      m_buffer := '%' :: "box".toList } },
        ("box".toList : Buf).length + 1) ∧
    (∀ (buf : Buf) (pos : Nat), ¬(pos = buf.length) →
      ¬(rd buf (getNextToken buf pos) = '$') →
      ¬(rd buf (getNextToken buf pos) = '%') →
      parseName buf pos = (Option.none, getNextToken buf pos))) :=
  ⟨by decide, c5_name_sigil_kept "box".toList [] (by decide)⟩

/-- C5 counterexample to the original claim: parsing `Cube $box { }`
stores the display name `$box` — with the `$` prefix — on the created
node, not `box`. -/
theorem c5_dollar_in_display_name_cex :
    ((parse 60 "Cube $box \x7b \x7d ".toList).map
      (fun r => r.2.map (fun st => st.m_nodes.map (fun n => n.m_name)))) =
      Option.some (Option.some [[], ['$', 'b', 'o', 'x'], []]) := by decide

/-- C10: confirmed.  Both constructors install the default `logMessage`
sink; `setLogCallback` installs a non-null callback as given and replaces
a null callback by the default sink, so it never leaves a null callback
behind; and `setBuffer` does not touch the callback.  Hence the callback
observed through `getLogCallback` is non-null at every point of a
session's lifetime. -/
theorem c10_log_callback_never_null :
    (∀ (buffer : Buf) (len : Nat) (ownsIt : Bool),
      getLogCallback (bufferCtor buffer len ownsIt) = LogCallbackV.logMessage) ∧
    getLogCallback emptyCtor = LogCallbackV.logMessage ∧
    (∀ (s : Session) (cb : LogCallbackV),
      getLogCallback (setLogCallback s cb) ≠ LogCallbackV.nullCB) ∧
    (∀ s : Session,
      getLogCallback (setLogCallback s LogCallbackV.nullCB) = LogCallbackV.logMessage) ∧
    (∀ (s : Session) (n : Nat),
      getLogCallback (setLogCallback s (LogCallbackV.user n)) = LogCallbackV.user n) ∧
    (∀ (s : Session) (buffer : Buf) (len : Nat) (ownsIt : Bool),
      getLogCallback (setBuffer s buffer len ownsIt) = getLogCallback s) := by
  refine ⟨fun _ _ _ => rfl, rfl, ?_, fun _ => rfl, fun _ _ => rfl, ?_⟩
  · intro s cb
    unfold setLogCallback getLogCallback
    by_cases hcb : cb = LogCallbackV.nullCB
    · rw [if_neg (by simp [hcb])]
      simp
    · rw [if_pos hcb]
      exact hcb
  · intro s buffer len ownsIt
    unfold setBuffer getLogCallback
    by_cases h1 : s.m_buffer.isSome && s.m_ownsBuffer
    · rw [if_pos h1]
      by_cases h2 : ownsIt <;> simp [h2]
    · rw [if_neg h1]
      by_cases h2 : ownsIt <;> simp [h2]

end OpenDDL
